import Mathlib

/-!
Verification of the MDA control/lineage subsystem (manifest store, runtime
resolver, evidence/lineage ledger, pipeline interpreter, trace reconstruction).

The Python sources are shallowly embedded: JSON documents become the `Json`
inductive, the file stores become association lists threaded through the
operations, timestamps become explicit `now` parameters, and fallible code
returns `Except`.  Every definition mirrors the corresponding function in the
repository (paths noted next to each definition).
-/

namespace MDA

/-- JSON values, the data model for manifests and evidence records
(`dict`/`list`/`str`/`int`/`bool`/`None` in the Python sources).
Objects are ordered association lists, as Python dicts are insertion-ordered. -/
inductive Json where
  | null : Json
  | bool : Bool → Json
  | num : Int → Json
  | str : String → Json
  | arr : List Json → Json
  | obj : List (String × Json) → Json
deriving Inhabited

/-- An evidence/manifest record: a JSON object's entry list. -/
abbrev Rec := List (String × Json)

/-- First value bound to key `k` (Python `dict[k]` / `dict.get(k)`). -/
def lookupKey (k : String) : List (String × Json) → Option Json
  | [] => none
  | (k', v) :: rest => if k' = k then some v else lookupKey k rest

/-- Python truthiness of a JSON value (`if value:`). -/
def truthy : Json → Bool
  | .null => false
  | .bool b => b
  | .num n => n ≠ 0
  | .str s => s ≠ ""
  | .arr l => !l.isEmpty
  | .obj o => !o.isEmpty

/-- `d[k] = v` on an insertion-ordered dict: overwrite in place (keeping the
key's position) when the key is present, else append. -/
def recSet : Rec → String → Json → Rec
  | [], k, v => [(k, v)]
  | (k', v') :: t, k, v =>
    if k' = k then (k, v) :: t else (k', v') :: recSet t k v

/-- `d.update(data)`: apply `recSet` for each entry of `data` in order. -/
def recUpdate (r : Rec) (data : Rec) : Rec :=
  data.foldl (fun acc p => recSet acc p.1 p.2) r

/-- Build a dict literal from entries (later entries overwrite earlier ones,
as in a Python `{...}` display with `**` splices). -/
def mkDict (entries : List (String × Json)) : Rec :=
  recUpdate [] entries

/-- `del d[k]` / `d.pop(k, None)`: drop every binding of `k`. -/
def removeKey (k : String) : Rec → Rec
  | [] => []
  | (k', v) :: t => if k' = k then removeKey k t else (k', v) :: removeKey k t

/-- `d.get(k, default)` for string-valued fields. -/
def getStrD (r : Rec) (k d : String) : String :=
  match lookupKey k r with
  | some (.str s) => s
  | _ => d

/-- Keys of a record in order. -/
def recKeys (r : Rec) : List String := r.map Prod.fst

/-! ## Semantic version comparison

`ManifestStore._compare_versions` in
`src/mda_platform/control_plane/manifest_store/manifest_store.py`:
split on `"."`, keep the all-digit parts, convert to integers, and compare
the resulting tuples with Python tuple comparison (elementwise, a proper
prefix comparing smaller). -/

/-- `v.split(".")` on the character list: split at every separator occurrence,
keeping empty segments (as Python `str.split` with an explicit separator does). -/
def splitOnChar (sep : Char) : List Char → List (List Char)
  | [] => [[]]
  | c :: rest =>
    let r := splitOnChar sep rest
    if c = sep then [] :: r
    else
      match r with
      | [] => [[c]]
      | h :: t => (c :: h) :: t

/-- Python `str.isdigit()` restricted to ASCII: non-empty and all digits. -/
def strIsDigit (cs : List Char) : Bool :=
  !cs.isEmpty && cs.all Char.isDigit

/-- Python `int(p)` for an all-digit string. -/
def strToNat (cs : List Char) : Nat :=
  cs.foldl (fun n c => n * 10 + (c.toNat - 48)) 0

/-- `parse_version` inside `ManifestStore._compare_versions`: split on `"."`,
keep the all-digit parts, convert each to an integer. -/
def parseVersion (v : String) : List Nat :=
  ((splitOnChar '.' v.data).filter strIsDigit).map strToNat

/-- Python tuple comparison on integer tuples: elementwise; the shorter tuple
compares smaller when it is a proper prefix of the longer one. -/
def cmpLex : List Nat → List Nat → Int
  | [], [] => 0
  | [], _ :: _ => -1
  | _ :: _, [] => 1
  | a :: as, b :: bs => if a < b then -1 else if b < a then 1 else cmpLex as bs

/-- `ManifestStore._compare_versions`: -1, 0 or 1. -/
def compareVersions (v1 v2 : String) : Int :=
  cmpLex (parseVersion v1) (parseVersion v2)

/-! ## Canonical JSON serialization

`json.dumps(manifest, sort_keys=True)` as used by
`ManifestStore._compute_hash`: default separators `", "` and `": "`,
`ensure_ascii=True` string escaping, object keys sorted by code point.
Output is built as a character list. -/

/-- The `{` character (0x7b). -/
def lbraceChar : Char := Char.ofNat 123

/-- The `}` character (0x7d). -/
def rbraceChar : Char := Char.ofNat 125

/-- Lower-case hex digit for `n < 16`. -/
def hexDigitChar (n : Nat) : Char :=
  if n < 10 then Char.ofNat (48 + n) else Char.ofNat (87 + n)

/-- `\uXXXX` escape for a 16-bit code unit. -/
def u4Escape (n : Nat) : List Char :=
  ['\\', 'u', hexDigitChar (n / 4096 % 16), hexDigitChar (n / 256 % 16),
   hexDigitChar (n / 16 % 16), hexDigitChar (n % 16)]

/-- `json.dumps` escaping of one character (`ensure_ascii=True`): printable
ASCII passes through, the short escapes are used where they exist, everything
else becomes `\uXXXX` (a surrogate pair beyond the BMP). -/
def escapeChar (c : Char) : List Char :=
  if c = '\\' then ['\\', '\\']
  else if c = '"' then ['\\', '"']
  else if c = Char.ofNat 10 then ['\\', 'n']
  else if c = Char.ofNat 13 then ['\\', 'r']
  else if c = Char.ofNat 9 then ['\\', 't']
  else if c = Char.ofNat 8 then ['\\', 'b']
  else if c = Char.ofNat 12 then ['\\', 'f']
  else if 32 ≤ c.toNat ∧ c.toNat ≤ 126 then [c]
  else if c.toNat < 65536 then u4Escape c.toNat
  else u4Escape (55296 + (c.toNat - 65536) / 1024) ++
       u4Escape (56320 + (c.toNat - 65536) % 1024)

/-- A JSON string literal: quotes around the escaped characters. -/
def quoteStr (s : String) : List Char :=
  '"' :: s.data.flatMap escapeChar ++ ['"']

/-- Decimal digits of a natural number, with enough fuel to terminate. -/
def natDigitsAux : Nat → Nat → List Char
  | 0, _ => []
  | fuel + 1, n =>
    if n < 10 then [Char.ofNat (48 + n)]
    else natDigitsAux fuel (n / 10) ++ [Char.ofNat (48 + n % 10)]

/-- Decimal digits of a natural number. -/
def natDigits (n : Nat) : List Char :=
  natDigitsAux (n + 1) n

/-- `json.dumps` rendering of an integer. -/
def intRepr : Int → List Char
  | .ofNat n => natDigits n
  | .negSucc n => '-' :: natDigits (n + 1)

/-- Comparison used by `sorted(dct.items())` under `sort_keys=True`: keys are
distinct in a dict, so only the key ordering matters. -/
def entryLEb (a b : String × List Char) : Bool :=
  decide (a.1 ≤ b.1)

/-- Render one already-serialized object entry: `"key": value`. -/
def renderEntry (p : String × List Char) : List Char :=
  quoteStr p.1 ++ ':' :: ' ' :: p.2

/-- Join pieces with the default `json.dumps` item separator `", "`. -/
def joinCommaSep (l : List (List Char)) : List Char :=
  (List.intersperse [',', ' '] l).flatten

mutual

/-- `json.dumps(j, sort_keys=True)`.  Object entries have their values
serialized first and are then sorted by key; since the (stable) sort compares
keys only, this renders exactly what `json.dumps` renders after sorting the
items of the dict. -/
def serialize : Json → List Char
  | .null => "null".data
  | .bool true => "true".data
  | .bool false => "false".data
  | .num n => intRepr n
  | .str s => quoteStr s
  | .arr l => '[' :: joinCommaSep (serializeList l) ++ [']']
  | .obj o =>
    lbraceChar ::
      joinCommaSep (((serializeEntries o).mergeSort entryLEb).map renderEntry) ++
      [rbraceChar]

/-- Serialize every element of a JSON array. -/
def serializeList : List Json → List (List Char)
  | [] => []
  | x :: xs => serialize x :: serializeList xs

/-- Serialize the value of every object entry, keeping the key. -/
def serializeEntries : List (String × Json) → List (String × List Char)
  | [] => []
  | (k, v) :: rest => (k, serialize v) :: serializeEntries rest

end

/-! ## SHA-256 (`hashlib.sha256`)

Standard SHA-256 over byte lists, on `Nat` with explicit `% 2^32`. -/

/-- 2^32. -/
def m32 : Nat := 4294967296

/-- Addition modulo 2^32. -/
def add32 (a b : Nat) : Nat := (a + b) % m32

/-- Right rotation of a 32-bit word. -/
def rotr32 (n x : Nat) : Nat := ((x >>> n) ||| (x <<< (32 - n))) % m32

/-- Bitwise complement of a 32-bit word. -/
def not32 (x : Nat) : Nat := x ^^^ (m32 - 1)

/-- SHA-256 `Ch`. -/
def shaCh (x y z : Nat) : Nat := (x &&& y) ^^^ (not32 x &&& z)

/-- SHA-256 `Maj`. -/
def shaMaj (x y z : Nat) : Nat := (x &&& y) ^^^ (x &&& z) ^^^ (y &&& z)

/-- SHA-256 `Σ0`. -/
def bigSigma0 (x : Nat) : Nat := rotr32 2 x ^^^ rotr32 13 x ^^^ rotr32 22 x

/-- SHA-256 `Σ1`. -/
def bigSigma1 (x : Nat) : Nat := rotr32 6 x ^^^ rotr32 11 x ^^^ rotr32 25 x

/-- SHA-256 `σ0`. -/
def smallSigma0 (x : Nat) : Nat := rotr32 7 x ^^^ rotr32 18 x ^^^ (x >>> 3)

/-- SHA-256 `σ1`. -/
def smallSigma1 (x : Nat) : Nat := rotr32 17 x ^^^ rotr32 19 x ^^^ (x >>> 10)

/-- The 64 SHA-256 round constants. -/
def sha256K : List Nat :=
  [1116352408, 1899447441, 3049323471, 3921009573, 961987163, 1508970993,
   2453635748, 2870763221, 3624381080, 310598401, 607225278, 1426881987,
   1925078388, 2162078206, 2614888103, 3248222580, 3835390401, 4022224774,
   264347078, 604807628, 770255983, 1249150122, 1555081692, 1996064986,
   2554220882, 2821834349, 2952996808, 3210313671, 3336571891, 3584528711,
   113926993, 338241895, 666307205, 773529912, 1294757372, 1396182291,
   1695183700, 1986661051, 2177026350, 2456956037, 2730485921, 2820302411,
   3259730800, 3345764771, 3516065817, 3600352804, 4094571909, 275423344,
   430227734, 506948616, 659060556, 883997877, 958139571, 1322822218,
   1537002063, 1747873779, 1955562222, 2024104815, 2227730452, 2361852424,
   2428436474, 2756734187, 3204031479, 3329325298]

/-- The eight 32-bit pieces of a SHA-256 state. -/
structure Hash8 where
  a : Nat
  b : Nat
  c : Nat
  d : Nat
  e : Nat
  f : Nat
  g : Nat
  h : Nat

/-- Initial SHA-256 state. -/
def sha256Init : Hash8 :=
  ⟨1779033703, 3144134277, 1013904242, 2773480762,
   1359893119, 2600822924, 528734635, 1541459225⟩

/-- One SHA-256 round: consume one `(k, w)` pair. -/
def shaRound (st : Hash8) (kw : Nat × Nat) : Hash8 :=
  let t1 := add32 st.h (add32 (bigSigma1 st.e)
    (add32 (shaCh st.e st.f st.g) (add32 kw.1 kw.2)))
  let t2 := add32 (bigSigma0 st.a) (shaMaj st.a st.b st.c)
  ⟨add32 t1 t2, st.a, st.b, st.c, add32 st.d t1, st.e, st.f, st.g⟩

/-- Extend a 16-word block to the 64-word message schedule, `fuel` new words. -/
def extendSchedule : Nat → List Nat → List Nat
  | 0, w => w
  | fuel + 1, w =>
    let i := w.length
    let nw := add32 (add32 (smallSigma1 (w.getD (i - 2) 0)) (w.getD (i - 7) 0))
      (add32 (smallSigma0 (w.getD (i - 15) 0)) (w.getD (i - 16) 0))
    extendSchedule fuel (w ++ [nw])

/-- Compress one 512-bit block into the running state. -/
def compressBlock (st : Hash8) (block : List Nat) : Hash8 :=
  let w := extendSchedule 48 block
  let fin := (sha256K.zip w).foldl shaRound st
  ⟨add32 st.a fin.a, add32 st.b fin.b, add32 st.c fin.c, add32 st.d fin.d,
   add32 st.e fin.e, add32 st.f fin.f, add32 st.g fin.g, add32 st.h fin.h⟩

/-- Big-endian 8-byte encoding of the message bit length. -/
def lenBytes (n : Nat) : List Nat :=
  [n >>> 56 % 256, n >>> 48 % 256, n >>> 40 % 256, n >>> 32 % 256,
   n >>> 24 % 256, n >>> 16 % 256, n >>> 8 % 256, n % 256]

/-- SHA-256 padding: `0x80`, zeros to 56 mod 64, then the bit length. -/
def padMessage (msg : List Nat) : List Nat :=
  let len := msg.length
  let k := (119 - len % 64) % 64
  msg ++ 128 :: List.replicate k 0 ++ lenBytes (len * 8)

/-- Big-endian packing of bytes into 32-bit words. -/
def bytesToWords : List Nat → List Nat
  | a :: b :: c :: d :: rest => (((a * 256 + b) * 256 + c) * 256 + d) :: bytesToWords rest
  | _ => []

/-- Split a word list into 16-word blocks. -/
def toBlocks (ws : List Nat) : List (List Nat) :=
  if h : ws.isEmpty then []
  else ws.take 16 :: toBlocks (ws.drop 16)
termination_by ws.length
decreasing_by
  simp only [List.length_drop]
  have : ws ≠ [] := by simpa [List.isEmpty_iff] using h
  have : 0 < ws.length := List.length_pos.mpr this
  omega

/-- Big-endian bytes of a 32-bit word. -/
def wordBytes (w : Nat) : List Nat :=
  [w >>> 24 % 256, w >>> 16 % 256, w >>> 8 % 256, w % 256]

/-- SHA-256 digest (32 bytes) of a byte list. -/
def sha256 (msg : List Nat) : List Nat :=
  let fin := (toBlocks (bytesToWords (padMessage msg))).foldl compressBlock sha256Init
  wordBytes fin.a ++ wordBytes fin.b ++ wordBytes fin.c ++ wordBytes fin.d ++
  wordBytes fin.e ++ wordBytes fin.f ++ wordBytes fin.g ++ wordBytes fin.h

/-- Two lower-case hex characters of a byte. -/
def byteHex (b : Nat) : List Char :=
  [hexDigitChar (b / 16 % 16), hexDigitChar (b % 16)]

/-- `hexdigest()`: hex characters of a byte list. -/
def hexChars (bs : List Nat) : List Char :=
  bs.flatMap byteHex

/-- UTF-8 bytes of one character (`str.encode()`). -/
def charUtf8 (c : Char) : List Nat :=
  let n := c.toNat
  if n < 128 then [n]
  else if n < 2048 then [192 + n / 64, 128 + n % 64]
  else if n < 65536 then [224 + n / 4096, 128 + n / 64 % 64, 128 + n % 64]
  else [240 + n / 262144, 128 + n / 4096 % 64, 128 + n / 64 % 64, 128 + n % 64]

/-- UTF-8 bytes of a character list. -/
def utf8Bytes (cs : List Char) : List Nat :=
  cs.flatMap charUtf8

/-- `ManifestStore._compute_hash`:
`hashlib.sha256(json.dumps(manifest, sort_keys=True).encode()).hexdigest()[:16]`. -/
def computeHash (m : Json) : String :=
  String.mk ((hexChars (sha256 (utf8Bytes (serialize m)))).take 16)

/-! ## Equality of JSON documents as unordered key-value mappings -/

/-- Keys of an object entry list. -/
def objKeys (o : List (String × Json)) : List String := o.map Prod.fst

/-- Whether the keys of an object entry list are pairwise distinct
(always true of a Python dict). -/
def nodupKeysb (o : List (String × Json)) : Bool :=
  (objKeys o).Nodup

mutual

/-- Equality of JSON documents as unordered key-value mappings: identical
leaves, arrays equal elementwise, objects with the same key set (no duplicate
keys on either side) and equivalent values at every key. -/
def jsonEqb : Json → Json → Bool
  | .null, .null => true
  | .bool a, .bool b => a = b
  | .num a, .num b => a = b
  | .str a, .str b => a = b
  | .arr a, .arr b => jsonEqbArr a b
  | .obj a, .obj b =>
    nodupKeysb a && nodupKeysb b &&
    ((objKeys b).all (fun k => (objKeys a).contains k)) && jsonEqbSub a b
  | _, _ => false

/-- Elementwise array equivalence. -/
def jsonEqbArr : List Json → List Json → Bool
  | [], [] => true
  | x :: xs, y :: ys => jsonEqb x y && jsonEqbArr xs ys
  | _, _ => false

/-- Every entry of the first object has an equivalent value in the second. -/
def jsonEqbSub : List (String × Json) → List (String × Json) → Bool
  | [], _ => true
  | (k, v) :: rest, o2 =>
    (match lookupKey k o2 with
     | some v2 => jsonEqb v v2
     | none => false) && jsonEqbSub rest o2

end

/-! ## Manifest Store

`src/mda_platform/control_plane/manifest_store/manifest_store.py`.
The JSON files under `store/{layer}/manifests/{agency}/{id}/v{version}/` are
modelled as a finite map keyed by `(manifest_id, version)`, and the
`_latest.json` pointer files as a finite map keyed by `manifest_id`
(`get_deployed` recovers layer and agency by search, so the lookup key in the
code is exactly `(manifest_id, version)`). -/

/-- Generic association-list lookup (first binding wins). -/
def assocFind {κ α : Type} [DecidableEq κ] (k : κ) : List (κ × α) → Option α
  | [] => none
  | (k', v) :: rest => if k' = k then some v else assocFind k rest

/-- Generic association-list update-or-append (overwrite in place when the
key is present, else append). -/
def assocSet {κ α : Type} [DecidableEq κ] : List (κ × α) → κ → α → List (κ × α)
  | [], k, v => [(k, v)]
  | (k', v') :: t, k, v =>
    if k' = k then (k, v) :: t else (k', v') :: assocSet t k v

/-- The persisted `ManifestVersionRecord` written by `ManifestStore.deploy`. -/
structure VersionRecord where
  manifest_id : String
  version : String
  manifest : Json
  content_hash : String
  deployed_at : String
  previous_version : Option String
  layer : Option String
  agency : Option String

/-- The manifest store's persistent state: immutable version records plus the
mutable latest pointers. -/
structure StoreState where
  records : List ((String × String) × VersionRecord)
  latest : List (String × String)

/-- The empty store. -/
def emptyStore : StoreState := ⟨[], []⟩

/-- `ManifestStore._get_manifest_id`: `manifest["identity"]["name"]`. -/
def getManifestId (m : Json) : Option String :=
  match m with
  | .obj o =>
    match lookupKey "identity" o with
    | some (.obj io) =>
      match lookupKey "name" io with
      | some (.str s) => some s
      | _ => none
    | _ => none
  | _ => none

/-- `manifest["evolution"]["manifest_version"]` inside `deploy`. -/
def getManifestVersion (m : Json) : Option String :=
  match m with
  | .obj o =>
    match lookupKey "evolution" o with
    | some (.obj eo) =>
      match lookupKey "manifest_version" eo with
      | some (.str s) => some s
      | _ => none
    | _ => none
  | _ => none

/-- `manifest.get("evolution", {}).get(key, "unknown")` inside `deploy`. -/
def getEvolutionField (m : Json) (key : String) : String :=
  match m with
  | .obj o =>
    match lookupKey "evolution" o with
    | some (.obj eo) => getStrD eo key "unknown"
    | _ => "unknown"
  | _ => "unknown"

/-- `ManifestStore.get_deployed(manifest_id, version)` for a given version. -/
def getDeployedVersioned (st : StoreState) (mid version : String) :
    Option VersionRecord :=
  assocFind (mid, version) st.records

/-- `ManifestStore.get_deployed_version(manifest_id)`: read the latest
pointer. -/
def getDeployedVersion (st : StoreState) (mid : String) : Option String :=
  assocFind mid st.latest

/-- Errors raised by `ManifestStore.deploy`. -/
inductive DeployError where
  | keyError : DeployError
  | governanceViolation (manifestId version existingHash newHash : String) : DeployError
deriving DecidableEq

/-- The result dict returned by `ManifestStore.deploy` (fields that only one
branch produces are optional). -/
structure DeployResult where
  status : String
  reason : Option String := none
  manifest_id : String
  version : String
  content_hash : Option String := none
  previous_version : Option String := none
  is_latest : Option Bool := none
  engine : Option String := none
  engine_version : Option String := none

/-- `should_update_latest` inside `ManifestStore.deploy`: true when there is
no current pointer or the new version compares strictly greater. -/
def shouldUpdateLatest (st : StoreState) (mid newVersion : String) : Bool :=
  match getDeployedVersion st mid with
  | none => true
  | some cur => decide (compareVersions newVersion cur > 0)

/-- Tail of `ManifestStore.deploy` after the governance check: persist the
immutable version record, then move the latest pointer only if the new
version outranks the current one (the pointer is re-read after the record
write, which does not touch the pointer file). -/
def deployCommit (now : String) (m : Json) (layer agency : Option String)
    (mid newVersion newHash : String) (st : StoreState) :
    DeployResult × StoreState :=
  let previousVersion := getDeployedVersion st mid
  let record : VersionRecord :=
    ⟨mid, newVersion, m, newHash, now, previousVersion, layer, agency⟩
  let st1 : StoreState :=
    { st with records := assocSet st.records (mid, newVersion) record }
  let upd := shouldUpdateLatest st1 mid newVersion
  let st2 : StoreState :=
    if upd then { st1 with latest := assocSet st1.latest mid newVersion }
    else st1
  ({ status := "DEPLOYED", manifest_id := mid, version := newVersion,
     content_hash := some newHash, previous_version := previousVersion,
     is_latest := some upd,
     engine := some (getEvolutionField m "engine"),
     engine_version := some (getEvolutionField m "engine_version") }, st2)

/-- `ManifestStore.deploy(manifest, force, layer, agency)`: hash the
canonicalized manifest; if this `(identity, version)` is already deployed,
an equal hash is a no-op (`SKIPPED`) and an unequal hash without `force`
raises the governance violation; otherwise persist the new version record
and conditionally move the latest pointer. -/
def deploy (now : String) (m : Json) (force : Bool) (layer agency : Option String)
    (st : StoreState) : Except DeployError (DeployResult × StoreState) :=
  match getManifestId m, getManifestVersion m with
  | some mid, some newVersion =>
    let newHash := computeHash m
    match getDeployedVersioned st mid newVersion with
    | some existing =>
      if existing.content_hash = newHash then
        .ok ({ status := "SKIPPED", reason := some "already_deployed",
               manifest_id := mid, version := newVersion }, st)
      else if !force then
        .error (.governanceViolation mid newVersion existing.content_hash newHash)
      else
        .ok (deployCommit now m layer agency mid newVersion newHash st)
    | none => .ok (deployCommit now m layer agency mid newVersion newHash st)
  | _, _ => .error .keyError

/-- The store state after a `deploy` call: unchanged when the call raises. -/
def deployState (now : String) (m : Json) (force : Bool)
    (layer agency : Option String) (st : StoreState) : StoreState :=
  match deploy now m force layer agency st with
  | .ok (_, st') => st'
  | .error _ => st

/-- Fold a sequence of deploy calls `(now, manifest, force, layer, agency)`
over the store. -/
def deployAll (calls : List (String × Json × Bool × Option String × Option String))
    (st : StoreState) : StoreState :=
  calls.foldl (fun s c => deployState c.1 c.2.1 c.2.2.1 c.2.2.2.1 c.2.2.2.2 s) st

/-! ## Evidence Store

`src/mda_platform/execution_plane/common/connectors/evidence_store.py` and
`sequence_counter.py`.  The evidence directory is a list of
`(filename, record)` pairs in creation order, the `utid → filename`
memoization cache is an association list, and the per-type sequence counters
(`.seq_curation`, `.seq_semantic`, ...) are a `name → current` map. -/

/-- `pathlib.Path.glob`-style matching of a filename against a pattern whose
only metacharacter is `*` (matching any character sequence). -/
def matchGlob : List Char → List Char → Bool
  | [], [] => true
  | [], _ :: _ => false
  | '*' :: p, s =>
    matchGlob p s ||
      (match s with
       | [] => false
       | _ :: s' => matchGlob ('*' :: p) s')
  | _ :: _, [] => false
  | c :: p, d :: s => c = d && matchGlob p s
termination_by p s => p.length + s.length

/-- The evidence store state: files, the UTID→filename cache, and the
sequence counters. -/
structure EvState where
  files : List (String × Rec)
  cache : List (String × String)
  seqs : List (String × Nat)

/-- The empty evidence store. -/
def emptyEv : EvState := ⟨[], [], []⟩

/-- `sequence_counter.next_seq(store)`: increment and return the per-store
counter. -/
def nextSeq (store : String) (st : EvState) : Nat × EvState :=
  let cur := (assocFind store st.seqs).getD 0
  (cur + 1, { st with seqs := assocSet st.seqs store (cur + 1) })

/-- `f"{seq:04d}"`. -/
def pad4 (n : Nat) : String :=
  let ds := natDigits n
  String.mk (List.replicate (4 - ds.length) '0' ++ ds)

/-- `manifest_id.replace("/", "_")`. -/
def safeId (s : String) : String :=
  String.mk (s.data.map (fun c => if c = '/' then '_' else c))

/-- Python `a or b` for optional strings (`None` and `""` are falsy). -/
def pyOrOptStr (a b : Option String) : Option String :=
  match a with
  | some s => if s = "" then b else some s
  | none => b

/-- A `dict.get` that succeeds only on string values. -/
def asStrOpt : Option Json → Option String
  | some (.str s) => some s
  | _ => none

/-- Python `str.lower()` (ASCII). -/
def pyLower (s : String) : String :=
  String.mk (s.data.map Char.toLower)

/-- `Option String → Json` for record fields that may be `None`. -/
def jsonOfOptStr : Option String → Json
  | some s => .str s
  | none => .null

/-- The scan inside `EvidenceStore._get_record_path`: first file matching the
glob pattern whose record's `utid` field equals the given UTID. -/
def findFileWithUtid (pat utid : String) : List (String × Rec) → Option String
  | [] => none
  | (fn, r) :: rest =>
    if matchGlob pat.data fn.data &&
        (match lookupKey "utid" r with
         | some (.str u) => u = utid
         | _ => false) then
      some fn
    else findFileWithUtid pat utid rest

/-- Python truthiness of an optional string (`None` and `""` are falsy). -/
def pyTruthyOpt : Option String → Option String
  | some s => if s = "" then none else some s
  | none => none

/-- `EvidenceStore._get_record_path(utid, manifest_id, version, record_type,
create_new)`: cache first, then a glob scan for an existing file with this
UTID (memoized when found), then — with `create_new` and both identifiers
truthy — a fresh sequenced filename (memoized), else the `{utid}.json`
fallback. -/
def getRecordPath (utid : String) (mid ver : Option String) (recordType : String)
    (createNew : Bool) (st : EvState) : String × EvState :=
  match assocFind utid st.cache with
  | some fn => (fn, st)
  | none =>
    let midPat := (pyTruthyOpt mid).getD "*"
    let pat := recordType ++ "_*_" ++ midPat ++ "*.json"
    match findFileWithUtid pat utid st.files with
    | some fn => (fn, { st with cache := assocSet st.cache utid fn })
    | none =>
      match pyTruthyOpt mid, pyTruthyOpt ver with
      | some m, some v =>
        if createNew then
          let sq := nextSeq recordType st
          let fn := recordType ++ "_" ++ pad4 sq.1 ++ "_" ++ safeId m ++ "_v" ++ v ++ ".json"
          (fn, { files := sq.2.files, cache := assocSet sq.2.cache utid fn, seqs := sq.2.seqs })
        else (utid ++ ".json", st)
      | _, _ => (utid ++ ".json", st)

/-- The merge-and-stamp of `EvidenceStore.write_uir` before reordering:
`existing.update(data)`, then `utid`, then `updated_at`, then `created_at`
only if absent. -/
def uirBase (now utid : String) (data existing : Rec) : Rec :=
  let merged := recUpdate existing data
  let m1 := recSet merged "utid" (.str utid)
  let m2 := recSet m1 "updated_at" (.str now)
  if (lookupKey "created_at" m2).isSome then m2 else recSet m2 "created_at" (.str now)

/-- The record `EvidenceStore.write_uir` serializes: the merged record
reordered so that `utid` is first and a truthy `doc_id` second (a falsy
`doc_id` is popped and not re-added). -/
def uirRecord (now utid : String) (data existing : Rec) : Rec :=
  let m3 := uirBase now utid data existing
  ("utid", Json.str utid) ::
    ((match lookupKey "doc_id" m3 with
      | some dv => if truthy dv then [("doc_id", dv)] else []
      | none => []) ++ removeKey "doc_id" (removeKey "utid" m3))

/-- `EvidenceStore.write_uir(utid, data, manifest_id, version)`: resolve the
record path, merge `data` into the existing record, stamp `utid` and
`updated_at`, set `created_at` only on first write, and reorder so that
`utid` is first and a truthy `doc_id` second. -/
def writeUir (now utid : String) (data : Rec) (mid ver : Option String)
    (st : EvState) : EvState :=
  let mid := pyOrOptStr mid (asStrOpt (lookupKey "manifest_id" data))
  let ver := pyOrOptStr ver (asStrOpt (lookupKey "manifest_version" data))
  let layer := getStrD data "layer" "curation"
  let recordType := if layer = "semantic" || layer = "semantics" then "semantic" else layer
  let pr := getRecordPath utid mid ver recordType true st
  let existing := (assocFind pr.1 pr.2.files).getD []
  { pr.2 with files := assocSet pr.2.files pr.1 (uirRecord now utid data existing) }

/-- `EvidenceStore.update_status(utid, status, **extra)`. -/
def updateStatus (now utid status : String) (extra : Rec) (st : EvState) : EvState :=
  writeUir now utid
    (mkDict ([("status", .str status), (pyLower status ++ "_at", .str now)] ++ extra))
    none none st

/-- `EvidenceStore.write_bom(utid, bom)`. -/
def writeBom (now utid : String) (bom : Json) (st : EvState) : EvState :=
  writeUir now utid [("bom", bom)] none none st

/-- `EvidenceStore.write_semantic(...)`: always mints a fresh sequenced
`semantic_NNNN_<id>_v<version>.json` filename via `next_seq("semantic")` and
writes the full record there (it does not consult the UTID→filename cache). -/
def writeSemantic (now utid manifestId manifestVersion : String)
    (curationUtid sourceManifestRef : Option String)
    (domain engine engineVersion : String) (outputPath : Option String)
    (recordCount : Int) (components : List Json) (status : String)
    (error docId : Option String) (extra : Rec) (st : EvState) : EvState :=
  let record := mkDict ([
    ("utid", .str utid),
    ("doc_id", jsonOfOptStr docId),
    ("record_type", .str "semantic"),
    ("manifest_id", .str manifestId),
    ("manifest_version", .str manifestVersion),
    ("curation_utid", jsonOfOptStr curationUtid),
    ("source_manifest_ref", jsonOfOptStr sourceManifestRef),
    ("domain", .str domain),
    ("engine", .str engine),
    ("engine_version", .str engineVersion),
    ("output_path", jsonOfOptStr outputPath),
    ("record_count", .num recordCount),
    ("components", .arr components),
    ("status", .str status),
    ("error", jsonOfOptStr error),
    ("executed_at", .str now),
    ("created_at", .str now)] ++ extra)
  let sq := nextSeq "semantic" st
  let fn := "semantic_" ++ pad4 sq.1 ++ "_" ++ safeId manifestId ++ "_v" ++
    manifestVersion ++ ".json"
  { sq.2 with files := assocSet sq.2.files fn record }

/-- `EvidenceStore.list_all()`: records of the files matching the glob
`utid-*.json`. -/
def listAll (st : EvState) : List Rec :=
  (st.files.filter (fun p => matchGlob "utid-*.json".data p.1.data)).map Prod.snd

/-- The filter predicate inside `EvidenceStore.find_first_success`. -/
def firstSuccessMatch (manifestId version : String) (r : Rec) : Bool :=
  (match lookupKey "manifest_id" r with
   | some (.str s) => s = manifestId
   | _ => false) &&
  (match lookupKey "manifest_version" r with
   | some (.str s) => s = version
   | _ => false) &&
  (match lookupKey "status" r with
   | some (.str s) => s = "SUCCESS"
   | _ => false) &&
  !truthy ((lookupKey "replay_mode" r).getD (.bool false))

/-- `EvidenceStore.find_first_success(manifest_id, version)`: filter
`list_all()` to matching non-replay SUCCESS records and return the earliest
by `created_at` (stable sort, as `list.sort` is). -/
def findFirstSuccess (manifestId version : String) (st : EvState) : Option Rec :=
  let matching := (listAll st).filter (firstSuccessMatch manifestId version)
  (matching.mergeSort
    (fun a b => decide (getStrD a "created_at" "" ≤ getStrD b "created_at" ""))).head?

/-- The evidence write of `publisher.trigger_semantic_job` (and, with layer
`"curation"`, of `trigger_curation_job`): record the QUEUED intent. -/
def triggerJobEvidence (now layer utid mid ver hash : String) (st : EvState) :
    EvState :=
  writeUir now utid
    (mkDict [("status", .str "QUEUED"), ("layer", .str layer),
             ("manifest_id", .str mid), ("manifest_version", .str ver),
             ("content_hash", .str hash)])
    none none st

/-! ## Runtime Resolver

`src/mda_platform/execution_plane/common/resolver/runtime_resolver.py`.
The Python import machinery (module plus attribute) is modelled as an
environment mapping fully-resolved dotted paths to loadable units; a unit's
`__mda_component__` metadata carries its declared version. -/

/-- The `__mda_component__` metadata of a resolvable unit
(the declared version; absent when the function has no metadata attribute). -/
structure MdaMeta where
  version : Option String

/-- A loadable unit: a function together with optional identity metadata. -/
structure PyFunc where
  metadata : Option MdaMeta

/-- A declarative component reference: `{"path": ..., "version": ...}`. -/
structure ComponentRef where
  path : String
  version : Option String

/-- `RuntimeResolver.ENGINE_BASE_PATHS`. -/
def engineBasePaths : List (String × String) :=
  [("python", "mda_platform.execution_plane.engines.curation_engine.python"),
   ("python_spark", "mda_platform.execution_plane.engines.curation_engine.python_spark"),
   ("python_duckdb", "mda_platform.execution_plane.engines.curation_engine.python_duckdb")]

/-- Errors raised by `RuntimeResolver.resolve_and_validate`. -/
inductive ResolveError where
  | unknownEngine (engine : String)
  | resolutionFailure (path resolvedPath engine : String)
  | governanceFailure (path : String)
  | versionMismatch (expected actual : Option String)
deriving DecidableEq

/-- `RuntimeResolver._is_engine_relative_path`: starts with `v<digit>`. -/
def isEngineRelativePath (path : String) : Bool :=
  match path.data with
  | c :: c2 :: _ => c = 'v' && c2.isDigit
  | _ => false

/-- `RuntimeResolver._expand_engine_relative_path`: raise on an unknown
engine, else prepend the engine's base namespace. -/
def expandEngineRelativePath (path engine : String) :
    Except ResolveError String :=
  match assocFind engine engineBasePaths with
  | none => .error (.unknownEngine engine)
  | some base => .ok (base ++ "." ++ path)

/-- `RuntimeResolver._remap_legacy_path`: the two `lib.`-prefixed legacy
remappings (the code's `str.replace` on a checked prefix is a prefix swap). -/
def remapLegacyPath (path : String) : String :=
  let legacy := "lib.engines.curation.".data
  if legacy.isPrefixOf path.data then
    String.mk ("mda_platform.execution_plane.engines.curation_engine.python.".data ++
      path.data.drop legacy.length)
  else if "lib.".data.isPrefixOf path.data then
    "mda_platform.execution_plane." ++ path
  else path

/-- The path classification at the top of
`RuntimeResolver.resolve_and_validate`: engine-relative paths are expanded,
anything else goes through the legacy remap. -/
def resolvePath (ref : ComponentRef) (engine : String) :
    Except ResolveError String :=
  if isEngineRelativePath ref.path then expandEngineRelativePath ref.path engine
  else .ok (remapLegacyPath ref.path)

/-- `RuntimeResolver.resolve_and_validate(component_ref, engine)`: classify
and expand the path, load the unit at the resolved address, fail if metadata
is missing, fail with a version mismatch naming both versions if the declared
version differs from the requested one, and only then return the unit. -/
def resolveAndValidate (env : String → Option PyFunc) (ref : ComponentRef)
    (engine : String) : Except ResolveError PyFunc :=
  (resolvePath ref engine).bind fun resolvedPath =>
    match env resolvedPath with
    | none => .error (.resolutionFailure ref.path resolvedPath engine)
    | some func =>
      match func.metadata with
      | none => .error (.governanceFailure ref.path)
      | some md =>
        if md.version ≠ ref.version then
          .error (.versionMismatch ref.version md.version)
        else .ok func

/-! ## Curation interpreter

`src/mda_platform/execution_plane/engines/curation_engine/python/interpreter.py`.
Component resolution plus invocation is modelled as one fallible call
`invoke : ComponentSpec → Rec → Except (String × Rec) (String × Rec)`
(both a resolver error and an error raised by the component body land in the
same `try` block of `CurationInterpreter.run`); an error carries the message
and the context as mutated so far, a success the result string and the
mutated context. -/

/-- Python `str.strip()` (ASCII whitespace). -/
def pyStrip (cs : List Char) : List Char :=
  let ws := fun c => c = ' ' || c = Char.ofNat 9 || c = Char.ofNat 10 || c = Char.ofNat 13
  (cs.dropWhile ws).reverse.dropWhile ws |>.reverse

/-- Python `s.split(sep)` for a non-empty separator sequence: leftmost,
non-overlapping. -/
def splitOnSeq (sep : List Char) (l : List Char) : List (List Char) :=
  if hsep : sep.isEmpty then [l]
  else
    if hpre : sep.isPrefixOf l then
      [] :: splitOnSeq sep (l.drop sep.length)
    else
      match l with
      | [] => [[]]
      | c :: rest =>
        match splitOnSeq sep rest with
        | [] => [[c]]
        | h :: t => (c :: h) :: t
termination_by l.length
decreasing_by
  · have hle : sep.length ≤ l.length := (List.isPrefixOf_iff_prefix.mp hpre).length_le
    have hpos : 0 < sep.length := by
      cases sep with
      | nil => simp at hsep
      | cons a b => simp
    simp only [List.length_drop]
    omega
  · simp

/-- Python `sub in s` for a non-empty substring. -/
def containsSeq (sep l : List Char) : Bool :=
  (splitOnSeq sep l).length > 1

/-- A `components_used` entry: step name, path, version. -/
structure ComponentSpec where
  path : String
  version : String
  params : Json

/-- One named processing step of a manifest `intent`. -/
structure StepSpec where
  stepName : String
  component : ComponentSpec

/-- The fields of `CurationInterpreter` fixed by its constructor. -/
structure InterpCfg where
  utid : String
  manifestId : String
  manifestVersion : String
  engine : String
  engineVersion : String
  replayMode : Bool
  sourceUtid : Option String
  manifest : Json
  ingestSpec : ComponentSpec
  steps : List StepSpec
  startedAt : String

/-- The invocation oracle: resolve-and-call one component on the shared
context. -/
abbrev Invoke := ComponentSpec → Rec → Except (String × Rec) (String × Rec)

/-- `Option String` rendered the way Python string-formats `None`. -/
def pyStrOfOpt : Option String → String
  | some s => s
  | none => "None"

/-- The execution context built by the interpreter constructor. -/
def interpCtx (cfg : InterpCfg) : Rec :=
  mkDict [("utid", .str cfg.utid), ("manifest_id", .str cfg.manifestId),
          ("manifest_version", .str cfg.manifestVersion),
          ("engine", .str cfg.engine), ("engine_version", .str cfg.engineVersion),
          ("started_at", .str cfg.startedAt), ("manifest", cfg.manifest),
          ("replay_mode", .bool cfg.replayMode),
          ("source_utid", jsonOfOptStr cfg.sourceUtid)]

/-- The `STARTED` evidence write in the interpreter constructor. -/
def interpStarted (now : String) (cfg : InterpCfg) (st : EvState) : EvState :=
  updateStatus now cfg.utid "STARTED"
    (mkDict [("engine", .str cfg.engine),
             ("engine_version", .str cfg.engineVersion),
             ("manifest_version", .str cfg.manifestVersion)]) st

/-- A `components_used` BOM entry. -/
def compEntry (stepName : String) (c : ComponentSpec) : Json :=
  .obj [("step", .str stepName), ("path", .str c.path), ("version", .str c.version)]

/-- An `execution_log` BOM entry. -/
def logEntry (stepName status result : String) : Json :=
  .obj [("step", .str stepName), ("status", .str status), ("result", .str result)]

/-- The wild-source/raw-doc capture after ingestion:
`if "->" in ingest_result: parts = ingest_result.split(":")[-1].strip().split("->")`. -/
def parseLineage (res : String) : Option (String × Option String) :=
  if containsSeq "->".data res.data then
    let afterColon := pyStrip ((splitOnChar ':' res.data).getLastD [])
    let parts := splitOnSeq "->".data afterColon
    let wild := String.mk (pyStrip (parts.headD []))
    let raw := match parts with
      | _ :: second :: _ => some (String.mk (pyStrip second))
      | _ => none
    some (wild, raw)
  else none

/-- Outcome of the sequential processing-steps loop. -/
inductive PhaseOutcome where
  | ok (ctx : Rec) (comps log : List Json)
  | err (e : String) (ctx : Rec) (comps log : List Json)

/-- The processing phase of `CurationInterpreter.run`: resolve and invoke
each step in declared order on the shared context, appending BOM entries;
stop at the first error. -/
def runSteps (invoke : Invoke) : List StepSpec → Rec → List Json → List Json →
    PhaseOutcome
  | [], ctx, comps, log => .ok ctx comps log
  | s :: rest, ctx, comps, log =>
    match invoke s.component ctx with
    | .error (e, ctx') => .err e ctx' comps log
    | .ok (res, ctx') =>
      runSteps invoke rest ctx'
        (comps ++ [compEntry s.stepName s.component])
        (log ++ [logEntry s.stepName "SUCCESS" res])

/-- The ingestion phase of `CurationInterpreter.run`: skipped under replay
(threading `source_utid` into the context), otherwise resolve and invoke the
manifest's ingestion component and capture the lineage breadcrumbs. -/
def ingestPhase (invoke : Invoke) (cfg : InterpCfg) (ctx : Rec) :
    Except (String × Rec) (Rec × List Json × List Json × Option (String × Option String)) :=
  if cfg.replayMode then
    let res := "REPLAY: Using Raw from " ++ pyStrOfOpt cfg.sourceUtid
    .ok (recSet ctx "raw_source_utid" (jsonOfOptStr cfg.sourceUtid),
      [.obj [("step", .str "ingestion"), ("path", .str "REPLAY_MODE"),
             ("version", .str "N/A"), ("source_utid", jsonOfOptStr cfg.sourceUtid)]],
      [logEntry "ingestion" "SKIPPED_REPLAY" res], none)
  else
    match invoke cfg.ingestSpec ctx with
    | .error e => .error e
    | .ok (res, ctx') =>
      .ok (ctx', [compEntry "ingestion" cfg.ingestSpec],
        [logEntry "ingestion" "SUCCESS" res], parseLineage res)

/-- Assemble the BOM dict in the field order `run` produces. -/
def bomJson (cfg : InterpCfg) (comps log : List Json)
    (wildRaw : Option (String × Option String)) (docId : Json)
    (completedAt status : String) (error : Option String) : Json :=
  .obj (mkDict
    ([("utid", .str cfg.utid), ("manifest_id", .str cfg.manifestId),
      ("manifest_version", .str cfg.manifestVersion),
      ("engine", .str cfg.engine), ("engine_version", .str cfg.engineVersion),
      ("components_used", .arr comps), ("execution_log", .arr log),
      ("started_at", .str cfg.startedAt)] ++
     (if cfg.replayMode then
        [("replay_mode", .bool true), ("source_utid", jsonOfOptStr cfg.sourceUtid)]
      else []) ++
     (match wildRaw with
      | some (w, r) => [("wild_source", .str w), ("raw_doc", jsonOfOptStr r)]
      | none => []) ++
     [("doc_id", docId), ("completed_at", .str completedAt),
      ("status", .str status)] ++
     (match error with
      | some e => [("error", .str e)]
      | none => [])))

/-- The result dict returned by `CurationInterpreter.run`. -/
structure RunResult where
  status : String
  utid : String
  error : Option String := none
  bom : Option Json := none

/-- The `except` branch of `CurationInterpreter.run`: record the error and
partial BOM in the evidence store, then return a failure result. -/
def runFail (cfg : InterpCfg) (now : String) (e : String) (ctx : Rec)
    (comps log : List Json) (wildRaw : Option (String × Option String))
    (st : EvState) : RunResult × EvState :=
  let docId := (lookupKey "doc_id" ctx).getD (.str "unknown")
  let bom := bomJson cfg comps log wildRaw docId now "FAILURE" (some e)
  let st1 := writeBom now cfg.utid bom st
  let st2 := updateStatus now cfg.utid "FAILURE"
    (mkDict [("error", .str e), ("doc_id", docId)]) st1
  ({ status := "FAILURE", utid := cfg.utid, error := some e }, st2)

/-- The success tail of `CurationInterpreter.run`: write the final BOM and
`SUCCESS` status, and return a success result carrying the BOM. -/
def runOk (cfg : InterpCfg) (now : String) (ctx : Rec)
    (comps log : List Json) (wildRaw : Option (String × Option String))
    (st : EvState) : RunResult × EvState :=
  let docId := (lookupKey "doc_id" ctx).getD (.str "unknown")
  let bom := bomJson cfg comps log wildRaw docId now "SUCCESS" none
  let st1 := writeBom now cfg.utid bom st
  let st2 := updateStatus now cfg.utid "SUCCESS" (mkDict [("doc_id", docId)]) st1
  ({ status := "SUCCESS", utid := cfg.utid, bom := some bom }, st2)

/-- `CurationInterpreter.run`: ingestion then the sequential steps inside one
`try`; any error is caught and turned into a recorded failure result. -/
def runInterp (invoke : Invoke) (cfg : InterpCfg) (now : String) (st : EvState) :
    RunResult × EvState :=
  match ingestPhase invoke cfg (interpCtx cfg) with
  | .error (e, ctx') => runFail cfg now e ctx' [] [] none st
  | .ok (ctx1, comps1, log1, wildRaw) =>
    match runSteps invoke cfg.steps ctx1 comps1 log1 with
    | .err e ctx2 comps2 log2 => runFail cfg now e ctx2 comps2 log2 wildRaw st
    | .ok ctx2 comps2 log2 => runOk cfg now ctx2 comps2 log2 wildRaw st

/-! ## Lineage trace reconstruction

`src/trace.py`.  The evidence directory is the same `(filename, record)` list
as in the evidence-store model; the nested dicts that `trace_curation`,
`trace_semantic` and `trace_retrieval` return become the `Lineage` tree, and
the printed broken-lineage warnings are collected into a list. -/

/-- `trace.find_evidence_by_utid`: first `*.json` file whose record's `utid`
equals the given UTID. -/
def findEvidenceByUtid (files : List (String × Rec)) (utid : String) :
    Option Rec :=
  match files with
  | [] => none
  | (fn, r) :: rest =>
    if matchGlob "*.json".data fn.data &&
        (match lookupKey "utid" r with
         | some (.str u) => u = utid
         | _ => false) then
      some r
    else findEvidenceByUtid rest utid

/-- The nested lineage dict built by the trace walk. -/
inductive Lineage where
  | curationNode (utid : String) (docId : Json)
      (manifestId wildSource rawDoc status : String)
  | semanticNode (utid : String) (docId : Json) (manifestId curationUtid : String)
      (curation : Option Lineage) (status : String)
  | retrievalNode (utid : String) (docIds : List Json) (manifestId : String)
      (semanticUtids : List String) (semantics : List Lineage) (status : String)
  | unknownNode (evidence : Rec)
  | notFoundNode (utid : String)

/-- `evidence.get(key, "unknown")` for the string fields of a record. -/
def getU (r : Rec) (k : String) : String := getStrD r k "unknown"

/-- The fallback of `trace.extract_source_file`: scan `execution_log` for the
first ingestion entry whose result parses as `...: <wild> -> <raw>`. -/
def fallbackSourceFile : List Json → String
  | [] => "unknown"
  | e :: rest =>
    match e with
    | .obj eo =>
      if getStrD eo "step" "" = "ingestion" then
        let res := (getStrD eo "result" "").data
        if containsSeq [':'] res && containsSeq "->".data res then
          let parts := splitOnChar ':' res
          match parts with
          | _ :: second :: _ =>
            String.mk (pyStrip ((splitOnSeq "->".data (pyStrip second)).headD []))
          | _ => fallbackSourceFile rest
        else fallbackSourceFile rest
      else fallbackSourceFile rest
    | _ => fallbackSourceFile rest

/-- The fallback of `trace.extract_raw_doc`: scan `execution_log` for the
first ingestion entry whose result contains `->` and return the part after
it. -/
def fallbackRawDoc : List Json → String
  | [] => "unknown"
  | e :: rest =>
    match e with
    | .obj eo =>
      if getStrD eo "step" "" = "ingestion" then
        let res := (getStrD eo "result" "").data
        if containsSeq "->".data res then
          match splitOnSeq "->".data res with
          | _ :: second :: _ => String.mk (pyStrip second)
          | _ => fallbackRawDoc rest
        else fallbackRawDoc rest
      else fallbackRawDoc rest
    | _ => fallbackRawDoc rest

/-- `evidence.get("bom", {})` as an object entry list. -/
def bomOf (r : Rec) : Rec :=
  match lookupKey "bom" r with
  | some (.obj b) => b
  | _ => []

/-- The `execution_log` list of a BOM. -/
def executionLogOf (b : Rec) : List Json :=
  match lookupKey "execution_log" b with
  | some (.arr l) => l
  | _ => []

/-- `trace.extract_source_file`: the BOM's `wild_source` when truthy, else the
legacy parse of the execution log. -/
def extractSourceFile (r : Rec) : String :=
  let b := bomOf r
  match lookupKey "wild_source" b with
  | some (.str ws) => if ws ≠ "" then ws else fallbackSourceFile (executionLogOf b)
  | _ => fallbackSourceFile (executionLogOf b)

/-- `trace.extract_raw_doc`: the BOM's `raw_doc` when truthy, else the legacy
parse of the execution log. -/
def extractRawDoc (r : Rec) : String :=
  let b := bomOf r
  match lookupKey "raw_doc" b with
  | some (.str rd) => if rd ≠ "" then rd else fallbackRawDoc (executionLogOf b)
  | _ => fallbackRawDoc (executionLogOf b)

/-- `trace.trace_curation`: a leaf node. -/
def traceCuration (r : Rec) : Lineage :=
  .curationNode (getU r "utid") ((lookupKey "doc_id" r).getD (.str "unknown"))
    (getU r "manifest_id") (extractSourceFile r) (extractRawDoc r)
    (getU r "status")

/-- `trace.trace_semantic`: the semantic node plus the walk into its
`curation_utid`; a missing upstream record becomes a warning, not an error. -/
def traceSemantic (files : List (String × Rec)) (r : Rec) :
    Lineage × List String :=
  let cu := getU r "curation_utid"
  match findEvidenceByUtid files cu with
  | some cr =>
    (.semanticNode (getU r "utid") ((lookupKey "doc_id" r).getD (.str "unknown"))
      (getU r "manifest_id") cu (some (traceCuration cr)) (getU r "status"), [])
  | none =>
    (.semanticNode (getU r "utid") ((lookupKey "doc_id" r).getD (.str "unknown"))
      (getU r "manifest_id") cu none (getU r "status"),
     ["Curation evidence not found"])

/-- The string entries of `evidence.get(key, [])`. -/
def getStrList (r : Rec) (k : String) : List String :=
  match lookupKey k r with
  | some (.arr l) =>
    l.filterMap (fun v => match v with | .str s => some s | _ => none)
  | _ => []

/-- The list value of `evidence.get(key, [])`. -/
def getArrD (r : Rec) (k : String) : List Json :=
  match lookupKey k r with
  | some (.arr l) => l
  | _ => []

/-- The loop of `trace.trace_retrieval` over `semantic_utids`: found parents
are traced, missing ones produce warnings. -/
def traceSemList (files : List (String × Rec)) :
    List String → List Lineage × List String
  | [] => ([], [])
  | s :: rest =>
    let tl := traceSemList files rest
    match findEvidenceByUtid files s with
    | some sr =>
      let ts := traceSemantic files sr
      (ts.1 :: tl.1, ts.2 ++ tl.2)
    | none => (tl.1, ("Semantic evidence not found: " ++ s) :: tl.2)

/-- `trace.trace_retrieval`: the retrieval node plus the walk into every
semantic parent. -/
def traceRetrieval (files : List (String × Rec)) (r : Rec) :
    Lineage × List String :=
  let sems := traceSemList files (getStrList r "semantic_utids")
  (.retrievalNode (getU r "utid") (getArrD r "doc_ids") (getU r "manifest_id")
    (getStrList r "semantic_utids") sems.1 (getU r "status"), sems.2)

/-- The layer dispatch of `trace.trace`:
`evidence.get("layer") or evidence.get("record_type", "unknown")`. -/
def layerOf (r : Rec) : String :=
  match lookupKey "layer" r with
  | some (.str s) => if s ≠ "" then s else getU r "record_type"
  | _ => getU r "record_type"

/-- `trace.trace(utid)`: load the record, dispatch on its layer, and return
the lineage tree together with the broken-lineage warnings. -/
def traceWalk (files : List (String × Rec)) (utid : String) :
    Lineage × List String :=
  match findEvidenceByUtid files utid with
  | none => (.notFoundNode utid, [])
  | some r =>
    let layer := layerOf r
    if layer = "retrieval" then traceRetrieval files r
    else if layer = "semantic" || layer = "semantics" then traceSemantic files r
    else if layer = "curation" then (traceCuration r, [])
    else if (lookupKey "components_used" r).isSome ||
        truthy ((lookupKey "components_used" (bomOf r)).getD .null) then
      (traceCuration r, [])
    else (.unknownNode r, [])

mutual

/-- `trace.collect_doc_ids` applied to an embedded raw record (the
`unknown`-layer branch embeds the evidence dict): every object node
contributes a truthy `doc_id` and the elements of a `doc_ids` list. -/
def docIdsInJson : Json → List Json
  | .obj o =>
    (match lookupKey "doc_id" o with
     | some v => if truthy v then [v] else []
     | none => []) ++
    (match lookupKey "doc_ids" o with
     | some (.arr l) => l
     | _ => []) ++
    docIdsInEntries o
  | .arr l => docIdsInList l
  | _ => []

/-- Recurse into the values of an object. -/
def docIdsInEntries : List (String × Json) → List Json
  | [] => []
  | (_, v) :: rest => docIdsInJson v ++ docIdsInEntries rest

/-- Recurse into the elements of an array. -/
def docIdsInList : List Json → List Json
  | [] => []
  | v :: rest => docIdsInJson v ++ docIdsInList rest

end

mutual

/-- `trace.collect_doc_ids` over the lineage tree: every node dict
contributes its truthy `doc_id` or its `doc_ids` elements, recursively. -/
def collectDocIds : Lineage → List Json
  | .curationNode _ docId _ _ _ _ => if truthy docId then [docId] else []
  | .semanticNode _ docId _ _ cur _ =>
    (if truthy docId then [docId] else []) ++
    (match cur with
     | some c => collectDocIds c
     | none => [])
  | .retrievalNode _ docIds _ _ sems _ => docIds ++ collectDocIdsList sems
  | .unknownNode r => docIdsInEntries r
  | .notFoundNode _ => []

/-- Collect over a list of child nodes. -/
def collectDocIdsList : List Lineage → List Json
  | [] => []
  | c :: rest => collectDocIds c ++ collectDocIdsList rest

end

mutual

/-- The UTIDs of the nodes the trace walk visits. -/
def visitedUtids : Lineage → List String
  | .curationNode u _ _ _ _ _ => [u]
  | .semanticNode u _ _ _ cur _ =>
    u :: (match cur with
          | some c => visitedUtids c
          | none => [])
  | .retrievalNode u _ _ _ sems _ => u :: visitedUtidsList sems
  | .unknownNode _ => []
  | .notFoundNode _ => []

/-- Visited UTIDs of a list of child nodes. -/
def visitedUtidsList : List Lineage → List String
  | [] => []
  | c :: rest => visitedUtids c ++ visitedUtidsList rest

end

/-- The `TRACE VERIFIED` flag printed at the end of `trace.trace`: set iff
the set of collected `doc_id`/`doc_ids` values is non-empty. -/
def traceVerified (files : List (String × Rec)) (utid : String) : Bool :=
  !(collectDocIds (traceWalk files utid).1).isEmpty

/-! ## Stated properties -/

/-- The latest-pointer invariant for one manifest identity: the pointer, when
set, names a deployed version, and every deployed version compares at most
the pointer. -/
def latestPointerInv (st : StoreState) (mid : String) : Prop :=
  (∀ p, assocFind mid st.latest = some p →
    ∃ r', assocFind (mid, p) st.records = some r') ∧
  (∀ v r, assocFind (mid, v) st.records = some r →
    ∃ p, assocFind mid st.latest = some p ∧ compareVersions v p ≤ 0)

/-- Lower-case hexadecimal digit characters. -/
def isHexDigitChar (c : Char) : Bool :=
  ('0' ≤ c && c ≤ '9') || ('a' ≤ c && c ≤ 'f')

/-! # Theorems -/

/-! ## Association-list and record lemmas -/

theorem assocFind_assocSet {κ α : Type} [DecidableEq κ]
    (l : List (κ × α)) (k k' : κ) (v : α) :
    assocFind k (assocSet l k' v) = if k' = k then some v else assocFind k l := by
  induction l with
  | nil => simp [assocSet, assocFind]
  | cons p t ih =>
    obtain ⟨pk, pv⟩ := p
    by_cases hpk : pk = k'
    · subst hpk
      by_cases hk : pk = k
      · subst hk
        simp [assocSet, assocFind]
      · simp [assocSet, assocFind, hk, Ne.symm hk]
    · by_cases hk : pk = k
      · subst hk
        simp [assocSet, assocFind, hpk, Ne.symm hpk]
      · simp [assocSet, assocFind, hpk, hk, ih]

theorem lookupKey_recSet (r : Rec) (k k' : String) (v : Json) :
    lookupKey k (recSet r k' v) = if k' = k then some v else lookupKey k r := by
  induction r with
  | nil => simp [recSet, lookupKey]
  | cons p t ih =>
    obtain ⟨pk, pv⟩ := p
    by_cases hpk : pk = k'
    · subst hpk
      by_cases hk : pk = k
      · subst hk
        simp [recSet, lookupKey]
      · simp [recSet, lookupKey, hk, Ne.symm hk]
    · by_cases hk : pk = k
      · subst hk
        simp [recSet, lookupKey, hpk, Ne.symm hpk]
      · simp [recSet, lookupKey, hpk, hk, ih]

theorem lookupKey_append (r₁ r₂ : Rec) (k : String) :
    lookupKey k (r₁ ++ r₂) = (lookupKey k r₁).orElse (fun _ => lookupKey k r₂) := by
  induction r₁ with
  | nil => simp [lookupKey]
  | cons p t ih =>
    obtain ⟨pk, pv⟩ := p
    by_cases hk : pk = k
    · simp [lookupKey, hk]
    · simp [lookupKey, hk, ih]

theorem lookupKey_removeKey (r : Rec) (k k' : String) :
    lookupKey k (removeKey k' r) = if k' = k then none else lookupKey k r := by
  induction r with
  | nil => simp [removeKey, lookupKey]
  | cons p t ih =>
    obtain ⟨pk, pv⟩ := p
    by_cases hpk : pk = k'
    · subst hpk
      by_cases hk : pk = k
      · subst hk
        simp [removeKey, lookupKey, ih]
      · simp [removeKey, lookupKey, hk, Ne.symm hk, ih]
    · by_cases hk : pk = k
      · subst hk
        simp [removeKey, lookupKey, hpk, Ne.symm hpk, lookupKey]
      · simp [removeKey, lookupKey, hpk, hk, ih]

theorem lookupKey_recUpdate (data r : Rec) (k : String) :
    lookupKey k (recUpdate r data) =
      (lookupKey k data.reverse).orElse (fun _ => lookupKey k r) := by
  induction data generalizing r with
  | nil => simp [recUpdate, lookupKey]
  | cons p t ih =>
    obtain ⟨pk, pv⟩ := p
    have step : recUpdate r ((pk, pv) :: t) = recUpdate (recSet r pk pv) t := by
      simp [recUpdate]
    rw [step, ih, List.reverse_cons, lookupKey_append]
    by_cases hk : pk = k
    · subst hk
      cases hrev : lookupKey pk t.reverse <;>
        simp [Option.orElse, lookupKey, lookupKey_recSet]
    · cases hrev : lookupKey k t.reverse <;>
        simp [Option.orElse, lookupKey, hk, lookupKey_recSet]

/-! ## Version-comparison lemmas -/

theorem cmpLex_self (l : List Nat) : cmpLex l l = 0 := by
  induction l with
  | nil => rfl
  | cons a as ih => simp [cmpLex, ih]

theorem cmpLex_swap (l₁ l₂ : List Nat) : cmpLex l₁ l₂ = -cmpLex l₂ l₁ := by
  induction l₁ generalizing l₂ with
  | nil => cases l₂ <;> rfl
  | cons a as ih =>
    cases l₂ with
    | nil => rfl
    | cons b bs =>
      by_cases h₁ : a < b
      · have h₂ : ¬ b < a := by omega
        simp [cmpLex, h₁, h₂]
      · by_cases h₂ : b < a
        · simp [cmpLex, h₁, h₂]
        · simp [cmpLex, h₁, h₂, ih]

theorem cmpLex_le_trans {l₁ l₂ l₃ : List Nat} (h₁ : cmpLex l₁ l₂ ≤ 0)
    (h₂ : cmpLex l₂ l₃ ≤ 0) : cmpLex l₁ l₃ ≤ 0 := by
  induction l₁ generalizing l₂ l₃ with
  | nil => cases l₃ <;> simp [cmpLex]
  | cons a as ih =>
    cases l₂ with
    | nil => simp [cmpLex] at h₁
    | cons b bs =>
      cases l₃ with
      | nil => cases bs <;> simp [cmpLex] at h₂
      | cons c cs =>
        by_cases hab : a < b
        · by_cases hbc : b < c
          · have hac : a < c := by omega
            simp [cmpLex, hac]
          · by_cases hcb : c < b
            · simp [cmpLex, hbc, hcb] at h₂
            · have hbc' : b = c := by omega
              subst hbc'
              simp [cmpLex, hab]
        · by_cases hba : b < a
          · simp [cmpLex, hab, hba] at h₁
          · have hab' : a = b := by omega
            subst hab'
            by_cases hbc : a < c
            · simp [cmpLex, hbc]
            · by_cases hcb : c < a
              · simp [cmpLex, hbc, hcb] at h₂
              · have : a = c := by omega
                subst this
                simp [cmpLex, hab] at h₁ h₂ ⊢
                exact ih h₁ h₂

theorem compareVersions_le_trans {v₁ v₂ v₃ : String}
    (h₁ : compareVersions v₁ v₂ ≤ 0) (h₂ : compareVersions v₂ v₃ ≤ 0) :
    compareVersions v₁ v₃ ≤ 0 :=
  cmpLex_le_trans h₁ h₂

theorem compareVersions_self (v : String) : compareVersions v v = 0 :=
  cmpLex_self _

theorem compareVersions_swap (v₁ v₂ : String) :
    compareVersions v₁ v₂ = -compareVersions v₂ v₁ :=
  cmpLex_swap _ _

/-! ## C3: version-comparison examples -/

/-- C3 (counterexample): the claim asserts `compare("1.0","1.0.0") == 0`,
but `_compare_versions` parses the tuples `(1,0)` and `(1,0,0)`, and Python
tuple comparison makes the proper prefix strictly smaller, so the comparison
returns `-1`, not `0`. -/
theorem claim_C3_counterexample :
    compareVersions "1.0" "1.0.0" = -1 ∧ compareVersions "1.0" "1.0.0" ≠ 0 := by
  decide

/-- C3 (amended): `compare("1.2.0","1.10.0") < 0` and
`compare("2.0.0","1.9.9") > 0` hold as claimed; `compare("1.0","1.0.0")` is
`< 0` (not `== 0`), because the numeric tuples are compared as Python tuples
and a proper prefix compares strictly smaller. -/
theorem claim_C3 :
    compareVersions "1.2.0" "1.10.0" < 0 ∧
    compareVersions "2.0.0" "1.9.9" > 0 ∧
    compareVersions "1.0" "1.0.0" < 0 := by
  decide

/-! ## C1: deploy idempotence and governance -/

/-- C1: if a record already exists for the manifest's `(identity, version)`
and its stored hash equals the new content hash, `deploy` returns `SKIPPED`
and leaves the store untouched; if the hashes differ and `force` is false it
raises the governance violation and the store is unchanged. -/
theorem claim_C1 (now : String) (m : Json) (force : Bool)
    (layer agency : Option String) (st : StoreState) (mid ver : String)
    (r : VersionRecord)
    (h1 : getManifestId m = some mid) (h2 : getManifestVersion m = some ver)
    (h3 : getDeployedVersioned st mid ver = some r) :
    (r.content_hash = computeHash m →
      deploy now m force layer agency st =
        .ok ({ status := "SKIPPED", reason := some "already_deployed",
               manifest_id := mid, version := ver }, st)) ∧
    (r.content_hash ≠ computeHash m → force = false →
      deploy now m force layer agency st =
        .error (.governanceViolation mid ver r.content_hash (computeHash m)) ∧
      deployState now m force layer agency st = st) := by
  constructor
  · intro heq
    simp [deploy, h1, h2, h3, heq]
  · intro hne hforce
    subst hforce
    refine ⟨?_, ?_⟩
    · simp [deploy, h1, h2, h3, hne]
    · simp [deployState, deploy, h1, h2, h3, hne]

/-- A deployed manifest used by several witnesses. -/
def exampleManifest : Json :=
  .obj [("identity", .obj [("name", .str "bls_employment_stats"),
                           ("agency", .str "bls")]),
        ("evolution", .obj [("manifest_version", .str "1.0.0"),
                            ("engine", .str "python")])]

/-- The version record `deploy` would have written for `exampleManifest`. -/
def exampleRecord : VersionRecord :=
  ⟨"bls_employment_stats", "1.0.0", exampleManifest, computeHash exampleManifest,
   "T0", none, some "curation", some "bls"⟩

/-- A store holding `exampleManifest` v1.0.0 with the pointer on it. -/
def exampleStore : StoreState :=
  ⟨[(("bls_employment_stats", "1.0.0"), exampleRecord)],
   [("bls_employment_stats", "1.0.0")]⟩

/-- C1 witness: re-deploying the identical manifest is a `SKIPPED` no-op on a
concrete store. -/
theorem claim_C1_witness :
    deploy "T1" exampleManifest false none none exampleStore =
      .ok ({ status := "SKIPPED", reason := some "already_deployed",
             manifest_id := "bls_employment_stats", version := "1.0.0" },
           exampleStore) :=
  (claim_C1 "T1" exampleManifest false none none exampleStore
    "bls_employment_stats" "1.0.0" exampleRecord rfl rfl rfl).1 rfl

/-! ## C6: resolver version enforcement -/

/-- C6: whenever the unit at the resolved address exposes metadata whose
declared version differs from the requested one, `resolve_and_validate`
raises the version mismatch naming both versions; and it returns a unit only
when that unit's declared version equals the requested one. -/
theorem claim_C6 (env : String → Option PyFunc) (ref : ComponentRef)
    (engine : String) :
    (∀ rp f md, resolvePath ref engine = .ok rp → env rp = some f →
      f.metadata = some md → md.version ≠ ref.version →
      resolveAndValidate env ref engine =
        .error (.versionMismatch ref.version md.version)) ∧
    (∀ g, resolveAndValidate env ref engine = .ok g →
      ∃ md, g.metadata = some md ∧ md.version = ref.version) := by
  constructor
  · intro rp f md hrp henv hmd hne
    simp [resolveAndValidate, hrp, Except.bind, henv, hmd, hne]
  · intro g hg
    unfold resolveAndValidate at hg
    cases hrp : resolvePath ref engine with
    | error e =>
      rw [hrp] at hg
      simp [Except.bind] at hg
    | ok rp =>
      rw [hrp] at hg
      simp only [Except.bind] at hg
      cases henv : env rp with
      | none =>
        rw [henv] at hg
        simp at hg
      | some f =>
        rw [henv] at hg
        dsimp only at hg
        cases hmd : f.metadata with
        | none =>
          rw [hmd] at hg
          simp at hg
        | some md =>
          rw [hmd] at hg
          by_cases hv : md.version = ref.version
          · simp [hv] at hg
            exact ⟨md, by rw [← hg]; exact hmd, hv⟩
          · simp [hv] at hg

/-- A resolution environment exposing one component whose declared version is
2.0.0. -/
def exampleEnv : String → Option PyFunc := fun p =>
  if p = "mda_platform.execution_plane.engines.curation_engine.python.v1.csv_parser.run"
  then some ⟨some ⟨some "2.0.0"⟩⟩ else none

/-- C6 witness: requesting v1.0.0 of a component declared v2.0.0 raises the
version mismatch naming both versions. -/
theorem claim_C6_witness :
    resolveAndValidate exampleEnv ⟨"v1.csv_parser.run", some "1.0.0"⟩ "python" =
      .error (.versionMismatch (some "1.0.0") (some "2.0.0")) :=
  (claim_C6 exampleEnv ⟨"v1.csv_parser.run", some "1.0.0"⟩ "python").1
    "mda_platform.execution_plane.engines.curation_engine.python.v1.csv_parser.run"
    ⟨some ⟨some "2.0.0"⟩⟩ ⟨some "2.0.0"⟩ rfl rfl rfl (by decide)

/-! ## C4: one evidence file per UTID -/

/-- The evidence store after the orchestrator records the QUEUED intent for a
semantic execution with UTID `utid-s1`. -/
def c4AfterIntent : EvState :=
  triggerJobEvidence "T0" "semantics" "utid-s1" "bls_employment_ontology"
    "1.0.0" "hash0" emptyEv

/-- The evidence store after the semantic interpreter then calls
`write_semantic` for the same UTID. -/
def c4AfterSemantic : EvState :=
  writeSemantic "T1" "utid-s1" "bls_employment_ontology" "1.0.0"
    (some "utid-c1") (some "bls_employment_stats") "macroeconomics" "python"
    "1.0" (some "semantic-0001.json") 3 [] "SUCCESS" none (some "doc-1") []
    c4AfterIntent

/-- C4 (the code violates the claim): in the semantic flow the orchestrator's
QUEUED write creates `semantic_0001_..._v1.0.0.json` for `utid-s1` and
memoizes it, but `write_semantic` then mints a second sequenced file
`semantic_0002_..._v1.0.0.json` for the very same UTID instead of writing to
the memoized file — two distinct evidence files carry the same `utid`. -/
theorem claim_C4 :
    c4AfterSemantic.files.map Prod.fst =
      ["semantic_0001_bls_employment_ontology_v1.0.0.json",
       "semantic_0002_bls_employment_ontology_v1.0.0.json"] ∧
    c4AfterSemantic.files.map (fun p => getStrD p.2 "utid" "") =
      ["utid-s1", "utid-s1"] ∧
    ("semantic_0001_bls_employment_ontology_v1.0.0.json" : String) ≠
      "semantic_0002_bls_employment_ontology_v1.0.0.json" ∧
    assocFind "utid-s1" c4AfterIntent.cache =
      some "semantic_0001_bls_employment_ontology_v1.0.0.json" := by
  decide

/-! ## C5: find_first_success never sees sequenced records -/

/-- A non-replay SUCCESS evidence record for
`(bls_employment_stats, 1.0.0)`. -/
def c5Record : Rec :=
  mkDict [("utid", .str "utid-abc"), ("manifest_id", .str "bls_employment_stats"),
          ("manifest_version", .str "1.0.0"), ("status", .str "SUCCESS"),
          ("created_at", .str "T0")]

/-- An evidence store containing exactly that record, under the sequenced
filename the store itself writes. -/
def c5Store : EvState :=
  ⟨[("curation_0001_bls_employment_stats_v1.0.0.json", c5Record)], [], []⟩

/-- C5 (the code violates the claim): the store contains a non-replay SUCCESS
record for `(bls_employment_stats, 1.0.0)` — it satisfies the
`find_first_success` filter — yet `find_first_success` returns `None`,
because `list_all` only globs `utid-*.json` while execution records are
written under `<type>_<seq>_<id>_v<version>.json` filenames. -/
theorem claim_C5 :
    firstSuccessMatch "bls_employment_stats" "1.0.0" c5Record = true ∧
    listAll c5Store = [] ∧
    findFirstSuccess "bls_employment_stats" "1.0.0" c5Store = none := by
  refine ⟨by decide, ?_, ?_⟩
  · simp [listAll, c5Store, matchGlob]
  · simp [findFirstSuccess, listAll, c5Store, matchGlob]

/-! ## C2: latest-pointer monotonicity -/

theorem deployCommit_snd (now : String) (m : Json) (layer agency : Option String)
    (mid ver hash : String) (st : StoreState) :
    (deployCommit now m layer agency mid ver hash st).2 =
      { records := assocSet st.records (mid, ver)
          ⟨mid, ver, m, hash, now, getDeployedVersion st mid, layer, agency⟩,
        latest :=
          if shouldUpdateLatest st mid ver then assocSet st.latest mid ver
          else st.latest } := by
  have hsame : ∀ recs, shouldUpdateLatest { st with records := recs } mid ver =
      shouldUpdateLatest st mid ver := fun _ => rfl
  unfold deployCommit
  dsimp only
  rw [hsame]
  split <;> rfl

theorem shouldUpdateLatest_none {st : StoreState} {mid ver : String}
    (h : assocFind mid st.latest = none) :
    shouldUpdateLatest st mid ver = true := by
  simp [shouldUpdateLatest, getDeployedVersion, h]

theorem shouldUpdateLatest_some {st : StoreState} {mid ver cur : String}
    (h : assocFind mid st.latest = some cur) :
    shouldUpdateLatest st mid ver = decide (compareVersions ver cur > 0) := by
  simp [shouldUpdateLatest, getDeployedVersion, h]

theorem deployState_cases (now : String) (m : Json) (force : Bool)
    (layer agency : Option String) (st : StoreState) :
    deployState now m force layer agency st = st ∨
    ∃ mid ver, getManifestId m = some mid ∧ getManifestVersion m = some ver ∧
      deployState now m force layer agency st =
        (deployCommit now m layer agency mid ver (computeHash m) st).2 := by
  unfold deployState deploy
  cases hid : getManifestId m with
  | none => left; rfl
  | some mid =>
    cases hver : getManifestVersion m with
    | none => left; rfl
    | some ver =>
      dsimp only
      cases hex : getDeployedVersioned st mid ver with
      | none =>
        right
        exact ⟨mid, ver, rfl, rfl, rfl⟩
      | some ex =>
        by_cases hh : ex.content_hash = computeHash m
        · left; simp [hh]
        · cases force with
          | false => left; simp [hh]
          | true =>
            right
            refine ⟨mid, ver, rfl, rfl, ?_⟩
            simp [hh]

theorem deployState_latest_stable (now : String) (m : Json) (force : Bool)
    (layer agency : Option String) (st : StoreState) (mid ver cur : String)
    (h1 : getManifestId m = some mid) (h2 : getManifestVersion m = some ver)
    (h3 : assocFind mid st.latest = some cur)
    (h4 : compareVersions ver cur ≤ 0) :
    (deployState now m force layer agency st).latest = st.latest := by
  rcases deployState_cases now m force layer agency st with h | ⟨mid', ver', hid, hver, h⟩
  · rw [h]
  · rw [h1] at hid
    rw [h2] at hver
    cases hid
    cases hver
    rw [h, deployCommit_snd]
    have hupd : shouldUpdateLatest st mid ver = false := by
      rw [shouldUpdateLatest_some h3]
      simp
      omega
    simp [hupd]

theorem latestPointerInv_empty (mid : String) : latestPointerInv emptyStore mid := by
  constructor
  · intro p hp
    simp [emptyStore, assocFind] at hp
  · intro v r hr
    simp [emptyStore, assocFind] at hr

theorem latestPointerInv_step (now : String) (m : Json) (force : Bool)
    (layer agency : Option String) (st : StoreState) (mid : String)
    (hinv : latestPointerInv st mid) :
    latestPointerInv (deployState now m force layer agency st) mid := by
  rcases deployState_cases now m force layer agency st with h | ⟨mid', ver, hid, hver, h⟩
  · rw [h]; exact hinv
  · rw [h, deployCommit_snd]
    set rec : VersionRecord :=
      ⟨mid', ver, m, computeHash m, now, getDeployedVersion st mid', layer, agency⟩ with hrec
    by_cases hmid : mid' = mid
    · subst hmid
      cases hcur : assocFind mid' st.latest with
      | none =>
        have hupd := @shouldUpdateLatest_none _ mid' ver hcur
        constructor
        · intro p hp
          simp only [hupd, if_true] at hp
          rw [assocFind_assocSet] at hp
          simp at hp
          subst hp
          refine ⟨rec, ?_⟩
          rw [assocFind_assocSet]
          simp
        · intro v r hr
          simp only [hupd, if_true]
          rw [assocFind_assocSet] at hr
          by_cases hv : ver = v
          · subst hv
            refine ⟨ver, ?_, ?_⟩
            · rw [assocFind_assocSet]; simp
            · simp [compareVersions_self]
          · simp [Prod.ext_iff, hv] at hr
            obtain ⟨p, hp, _⟩ := hinv.2 v r hr
            rw [hcur] at hp
            cases hp
      | some cur =>
        by_cases hgt : compareVersions ver cur > 0
        · have hupd : shouldUpdateLatest st mid' ver = true := by
            rw [shouldUpdateLatest_some hcur]
            simpa using hgt
          constructor
          · intro p hp
            simp only [hupd, if_true] at hp
            rw [assocFind_assocSet] at hp
            simp at hp
            subst hp
            refine ⟨rec, ?_⟩
            rw [assocFind_assocSet]
            simp
          · intro v r hr
            simp only [hupd, if_true]
            rw [assocFind_assocSet] at hr
            by_cases hv : ver = v
            · subst hv
              refine ⟨ver, ?_, ?_⟩
              · rw [assocFind_assocSet]; simp
              · simp [compareVersions_self]
            · simp [Prod.ext_iff, hv] at hr
              obtain ⟨p, hp, hle⟩ := hinv.2 v r hr
              rw [hcur] at hp
              injection hp with hp
              subst hp
              refine ⟨ver, ?_, ?_⟩
              · rw [assocFind_assocSet]; simp
              · have hswap : compareVersions cur ver = -compareVersions ver cur :=
                  compareVersions_swap cur ver
                have hpv : compareVersions cur ver ≤ 0 := by omega
                exact compareVersions_le_trans hle hpv
        · have hupd : shouldUpdateLatest st mid' ver = false := by
            rw [shouldUpdateLatest_some hcur]
            simpa using hgt
          constructor
          · intro p hp
            simp only [hupd, Bool.false_eq_true, if_false] at hp
            obtain ⟨r', hr'⟩ := hinv.1 p hp
            rw [assocFind_assocSet]
            by_cases hk : (mid', ver) = (mid', p)
            · exact ⟨rec, by simp [hk]⟩
            · exact ⟨r', by simp [hk, hr']⟩
          · intro v r hr
            simp only [hupd, Bool.false_eq_true, if_false]
            rw [assocFind_assocSet] at hr
            by_cases hv : ver = v
            · subst hv
              refine ⟨cur, hcur, by omega⟩
            · simp [Prod.ext_iff, hv] at hr
              exact hinv.2 v r hr
    · have hlat : ∀ q : String,
        assocFind mid
          (if shouldUpdateLatest st mid' ver then assocSet st.latest mid' ver
           else st.latest) = assocFind mid st.latest := by
        intro _
        split
        · rw [assocFind_assocSet]; simp [hmid]
        · rfl
      constructor
      · intro p hp
        rw [hlat ""] at hp
        obtain ⟨r', hr'⟩ := hinv.1 p hp
        rw [assocFind_assocSet]
        refine ⟨r', ?_⟩
        simp [Prod.ext_iff, hmid, hr']
      · intro v r hr
        rw [assocFind_assocSet] at hr
        simp only [Prod.mk.injEq, hmid, false_and, if_false] at hr
        obtain ⟨p, hp, hle⟩ := hinv.2 v r hr
        refine ⟨p, ?_, hle⟩
        rw [hlat ""]
        exact hp

theorem latestPointerInv_deployAll
    (calls : List (String × Json × Bool × Option String × Option String))
    (st : StoreState) (mid : String) (hinv : latestPointerInv st mid) :
    latestPointerInv (deployAll calls st) mid := by
  induction calls generalizing st with
  | nil => exact hinv
  | cons c rest ih =>
    exact ih _ (latestPointerInv_step c.1 c.2.1 c.2.2.1 c.2.2.2.1 c.2.2.2.2 st mid hinv)

/-- C2: over any sequence of deploy calls from the empty store, the latest
pointer of every manifest identity names a deployed version that every other
deployed version of that identity compares at most equal to (the
semantically-highest under the store's comparison); and a single deploy whose
version does not compare strictly greater than the current pointer leaves the
pointer file untouched — deploying an older version after a newer one never
moves the pointer. -/
theorem claim_C2 :
    (∀ calls mid, latestPointerInv (deployAll calls emptyStore) mid) ∧
    (∀ now m force layer agency st mid ver cur,
      getManifestId m = some mid → getManifestVersion m = some ver →
      assocFind mid st.latest = some cur → compareVersions ver cur ≤ 0 →
      (deployState now m force layer agency st).latest = st.latest) := by
  constructor
  · intro calls mid
    exact latestPointerInv_deployAll calls emptyStore mid (latestPointerInv_empty mid)
  · intro now m force layer agency st mid ver cur h1 h2 h3 h4
    exact deployState_latest_stable now m force layer agency st mid ver cur h1 h2 h3 h4

/-! ## Evidence-record merge lemmas -/

theorem recSet_append_of_not_mem (r : Rec) (k : String) (v : Json)
    (h : ∀ p ∈ r, p.1 ≠ k) : recSet r k v = r ++ [(k, v)] := by
  induction r with
  | nil => rfl
  | cons p t ih =>
    obtain ⟨pk, pv⟩ := p
    have hpk : pk ≠ k := h (pk, pv) (by simp)
    simp [recSet, hpk]
    exact ih (fun q hq => h q (by simp [hq]))

theorem recUpdate_append_of_disjoint (l acc : Rec)
    (hdisj : ∀ p ∈ l, ∀ q ∈ acc, p.1 ≠ q.1)
    (hnodup : (l.map Prod.fst).Nodup) : recUpdate acc l = acc ++ l := by
  induction l generalizing acc with
  | nil => simp [recUpdate]
  | cons p t ih =>
    obtain ⟨pk, pv⟩ := p
    have hstep : recUpdate acc ((pk, pv) :: t) = recUpdate (recSet acc pk pv) t := by
      simp [recUpdate]
    rw [hstep]
    rw [recSet_append_of_not_mem acc pk pv
      (fun q hq => Ne.symm (hdisj (pk, pv) (by simp) q hq))]
    obtain ⟨hpk_nm, hnd⟩ := List.nodup_cons.mp (show (pk :: t.map Prod.fst).Nodup from hnodup)
    rw [ih (acc ++ [(pk, pv)]) ?_ ?_]
    · simp
    · intro p hp q hq
      rcases List.mem_append.mp hq with hq | hq
      · exact hdisj p (by simp [hp]) q hq
      · simp at hq
        subst hq
        intro hc
        exact hpk_nm (List.mem_map.mpr ⟨p, hp, hc⟩)
    · exact hnd

theorem mkDict_of_nodup (l : Rec) (hnodup : (l.map Prod.fst).Nodup) :
    mkDict l = l := by
  unfold mkDict
  rw [recUpdate_append_of_disjoint l [] (by simp) hnodup]
  simp

theorem lookupKey_eq_none_of_keys_ne (l : Rec) (k : String)
    (h : ∀ p ∈ l, p.1 ≠ k) : lookupKey k l = none := by
  induction l with
  | nil => rfl
  | cons p t ih =>
    obtain ⟨pk, pv⟩ := p
    have hpk : pk ≠ k := h (pk, pv) (by simp)
    simp [lookupKey, hpk]
    exact ih (fun q hq => h q (by simp [hq]))

theorem lookupKey_reverse_of_nodup (l : Rec) (k : String)
    (hnodup : (l.map Prod.fst).Nodup) :
    lookupKey k l.reverse = lookupKey k l := by
  induction l with
  | nil => rfl
  | cons p t ih =>
    obtain ⟨pk, pv⟩ := p
    obtain ⟨hpk_nm, hnd⟩ := List.nodup_cons.mp (show (pk :: t.map Prod.fst).Nodup from hnodup)
    rw [List.reverse_cons, lookupKey_append]
    by_cases hk : pk = k
    · subst hk
      have hnone : lookupKey pk t.reverse = none := by
        apply lookupKey_eq_none_of_keys_ne
        intro q hq
        rw [List.mem_reverse] at hq
        intro hc
        exact hpk_nm (List.mem_map.mpr ⟨q, hq, hc⟩)
      rw [hnone]
      simp [Option.orElse, lookupKey]
    · rw [ih hnd]
      cases h : lookupKey k t <;> simp [Option.orElse, lookupKey, hk, h]

theorem getRecordPath_cacheHit {utid : String} {mid ver : Option String}
    {rt : String} {cn : Bool} {st : EvState} {fn : String}
    (h : assocFind utid st.cache = some fn) :
    getRecordPath utid mid ver rt cn st = (fn, st) := by
  simp [getRecordPath, h]

theorem writeUir_cacheHit {now utid : String} {data : Rec}
    {mid ver : Option String} {st : EvState} {fn : String}
    (h : assocFind utid st.cache = some fn) :
    writeUir now utid data mid ver st =
      ⟨assocSet st.files fn
          (uirRecord now utid data ((assocFind fn st.files).getD [])),
        st.cache, st.seqs⟩ := by
  simp [writeUir, getRecordPath_cacheHit h]

/-- The merged-and-stamped record before reordering, written out. -/
theorem uirBase_eq (now utid : String) (data existing : Rec) :
    uirBase now utid data existing =
      (let m2 := recSet (recSet (recUpdate existing data) "utid" (.str utid))
        "updated_at" (.str now);
       if (lookupKey "created_at" m2).isSome then m2
       else recSet m2 "created_at" (.str now)) := rfl

theorem lookupKey_uirBase_created (now utid : String) (data existing : Rec) :
    lookupKey "created_at" (uirBase now utid data existing) =
      some ((lookupKey "created_at"
        (recSet (recSet (recUpdate existing data) "utid" (.str utid))
          "updated_at" (.str now))).getD (.str now)) := by
  rw [uirBase_eq]
  dsimp only
  cases h : lookupKey "created_at"
      (recSet (recSet (recUpdate existing data) "utid" (Json.str utid))
        "updated_at" (Json.str now)) with
  | none => simp [h, lookupKey_recSet]
  | some v => simp [h]

theorem lookupKey_uirBase_ne (now utid : String) (data existing : Rec)
    (k : String) (hk : k ≠ "created_at") :
    lookupKey k (uirBase now utid data existing) =
      lookupKey k (recSet (recSet (recUpdate existing data) "utid" (.str utid))
        "updated_at" (.str now)) := by
  rw [uirBase_eq]
  dsimp only
  split
  · rfl
  · rw [lookupKey_recSet]
    simp [Ne.symm hk]

theorem lookupKey_uirRecord (now utid : String) (data existing : Rec)
    (k : String) :
    lookupKey k (uirRecord now utid data existing) =
      if k = "utid" then some (.str utid)
      else if k = "doc_id" then
        (match lookupKey "doc_id" (uirBase now utid data existing) with
         | some dv => if truthy dv then some dv else none
         | none => none)
      else lookupKey k (uirBase now utid data existing) := by
  unfold uirRecord
  dsimp only
  by_cases hu : k = "utid"
  · subst hu
    simp [lookupKey]
  · rw [if_neg hu]
    have hhead : lookupKey k (("utid", Json.str utid) ::
        ((match lookupKey "doc_id" (uirBase now utid data existing) with
          | some dv => if truthy dv then [("doc_id", dv)] else []
          | none => []) ++
         removeKey "doc_id" (removeKey "utid" (uirBase now utid data existing)))) =
        lookupKey k
        ((match lookupKey "doc_id" (uirBase now utid data existing) with
          | some dv => if truthy dv then [("doc_id", dv)] else []
          | none => []) ++
         removeKey "doc_id" (removeKey "utid" (uirBase now utid data existing))) := by
      simp [lookupKey, Ne.symm hu]
    rw [hhead, lookupKey_append]
    by_cases hd : k = "doc_id"
    · subst hd
      rw [if_pos rfl]
      cases hdv : lookupKey "doc_id" (uirBase now utid data existing) with
      | none =>
        simp [Option.orElse, lookupKey_removeKey, lookupKey, hdv]
      | some dv =>
        by_cases ht : truthy dv
        · simp [Option.orElse, ht, lookupKey]
        · simp [Option.orElse, ht, lookupKey, lookupKey_removeKey]
    · rw [if_neg hd]
      have hpart : lookupKey k
          (match lookupKey "doc_id" (uirBase now utid data existing) with
           | some dv => if truthy dv then [("doc_id", dv)] else []
           | none => []) = none := by
        cases hdv : lookupKey "doc_id" (uirBase now utid data existing) with
        | none => rfl
        | some dv =>
          by_cases ht : truthy dv
          · simp [ht, lookupKey, Ne.symm hd]
          · simp [ht, lookupKey]
      rw [hpart]
      simp [Option.orElse, lookupKey_removeKey, Ne.symm hd, Ne.symm hu]

theorem lookupKey_some_mem {l : Rec} {k : String} {v : Json}
    (h : lookupKey k l = some v) : (k, v) ∈ l := by
  induction l with
  | nil => cases h
  | cons p t ih =>
    obtain ⟨pk, pv⟩ := p
    by_cases hk : pk = k
    · subst hk
      simp [lookupKey] at h
      simp [h]
    · simp [lookupKey, hk] at h
      simp [ih h]

/-! ## C9: update_status merge and frame behaviour -/

/-- An evidence record in STARTED state. -/
def c9Record : Rec :=
  [("utid", .str "utid-x"), ("status", .str "STARTED"),
   ("created_at", .str "T0"), ("updated_at", .str "T0"),
   ("engine", .str "python")]

/-- A store holding that record under its memoized filename. -/
def c9Store : EvState :=
  ⟨[("curation_0001_m_v1.0.0.json", c9Record)],
   [("utid-x", "curation_0001_m_v1.0.0.json")], []⟩

/-- C9 (counterexample): as stated the claim fails twice on concrete input.
`update_status` with `created_at` among the extra fields overwrites the
already-present `created_at` (`existing.update(data)` runs before the
only-if-absent check), and even a plain `update_status` changes `updated_at`,
a record field not mentioned in the update. -/
theorem claim_C9_counterexample :
    getStrD c9Record "created_at" "" = "T0" ∧
    getStrD ((assocFind "curation_0001_m_v1.0.0.json"
        (updateStatus "T9" "utid-x" "SUCCESS"
          [("created_at", .str "EVIL")] c9Store).files).getD [])
      "created_at" "" = "EVIL" ∧
    getStrD c9Record "updated_at" "" = "T0" ∧
    getStrD ((assocFind "curation_0001_m_v1.0.0.json"
        (updateStatus "T9" "utid-x" "SUCCESS" [] c9Store).files).getD [])
      "updated_at" "" = "T9" ∧
    ("EVIL" : String) ≠ "T0" ∧ ("T9" : String) ≠ "T0" := by
  decide

/-- C9 (amended): for a UTID whose record file is memoized,
`update_status(utid, status, **extra)` — with extra fields that do not
collide with the managed keys — merges its fields into the existing record
(creating the record if the file is absent), sets the `<status>_at`
timestamp, re-stamps `utid`, refreshes `updated_at`, preserves an
already-present `created_at` (setting it to `now` only when absent), keeps
every other field unchanged, and drops only a falsy `doc_id`. -/
theorem claim_C9 (now utid status : String) (extra : Rec) (st : EvState)
    (fn : String) (rec : Rec)
    (hcache : assocFind utid st.cache = some fn)
    (hrec : rec = (assocFind fn st.files).getD [])
    (hnodup : (extra.map Prod.fst).Nodup)
    (hextra : ∀ p ∈ extra, p.1 ≠ "utid" ∧ p.1 ≠ "updated_at" ∧
      p.1 ≠ "created_at" ∧ p.1 ≠ "doc_id" ∧ p.1 ≠ "status" ∧
      p.1 ≠ pyLower status ++ "_at")
    (hs1 : pyLower status ++ "_at" ≠ "created_at")
    (hs2 : pyLower status ++ "_at" ≠ "doc_id")
    (hs3 : pyLower status ++ "_at" ≠ "utid")
    (hs4 : pyLower status ++ "_at" ≠ "status") :
    ∃ rec', assocFind fn (updateStatus now utid status extra st).files = some rec' ∧
      lookupKey "status" rec' = some (.str status) ∧
      lookupKey (pyLower status ++ "_at") rec' = some (.str now) ∧
      lookupKey "updated_at" rec' = some (.str now) ∧
      lookupKey "utid" rec' = some (.str utid) ∧
      lookupKey "created_at" rec' =
        some ((lookupKey "created_at" rec).getD (.str now)) ∧
      (∀ k v, lookupKey k extra = some v → lookupKey k rec' = some v) ∧
      (∀ k, (∀ p ∈ extra, p.1 ≠ k) → k ≠ "status" →
        k ≠ pyLower status ++ "_at" → k ≠ "utid" → k ≠ "updated_at" →
        k ≠ "created_at" → k ≠ "doc_id" →
        lookupKey k rec' = lookupKey k rec) ∧
      (lookupKey "doc_id" rec' =
        match lookupKey "doc_id" rec with
        | some dv => if truthy dv then some dv else none
        | none => none) := by
  subst hrec
  set sAt := pyLower status ++ "_at" with hsAt
  set base : Rec := [("status", Json.str status), (sAt, Json.str now)] with hbase
  set data := mkDict (base ++ extra) with hdata
  have hkeys_nodup : ((base ++ extra).map Prod.fst).Nodup := by
    rw [hbase]
    simp only [List.map_append, List.map_cons, List.map_nil, List.nil_append,
      List.cons_append]
    refine List.nodup_cons.mpr ⟨?_, List.nodup_cons.mpr ⟨?_, hnodup⟩⟩
    · intro hmem
      simp only [List.mem_cons] at hmem
      rcases hmem with h | h
      · exact hs4 h.symm
      · obtain ⟨p, hp, hpk⟩ := List.mem_map.mp h
        exact (hextra p hp).2.2.2.2.1 hpk
    · intro hmem
      obtain ⟨p, hp, hpk⟩ := List.mem_map.mp hmem
      exact (hextra p hp).2.2.2.2.2 hpk
  have hdata_eq : data = base ++ extra := mkDict_of_nodup _ hkeys_nodup
  have hD : ∀ k, lookupKey k (recUpdate ((assocFind fn st.files).getD []) data) =
      (lookupKey k data).orElse (fun _ => lookupKey k ((assocFind fn st.files).getD [])) := by
    intro k
    rw [lookupKey_recUpdate, lookupKey_reverse_of_nodup]
    rw [hdata_eq]
    exact hkeys_nodup
  have hupd : updateStatus now utid status extra st =
      writeUir now utid data none none st := rfl
  rw [hupd, writeUir_cacheHit hcache]
  set rec := (assocFind fn st.files).getD [] with hrec'
  refine ⟨uirRecord now utid data rec, ?_, ?_, ?_, ?_, ?_, ?_, ?_, ?_, ?_⟩
  · show assocFind fn (assocSet st.files fn (uirRecord now utid data rec)) = _
    rw [assocFind_assocSet]
    simp
  · rw [lookupKey_uirRecord]
    rw [if_neg (by decide), if_neg (by decide)]
    rw [lookupKey_uirBase_ne _ _ _ _ _ (by decide)]
    rw [lookupKey_recSet, lookupKey_recSet]
    rw [if_neg (by decide), if_neg (by decide), hD]
    rw [hdata_eq, hbase]
    simp [lookupKey, Option.orElse]
  · rw [lookupKey_uirRecord]
    rw [if_neg hs3, if_neg hs2]
    rw [lookupKey_uirBase_ne _ _ _ _ _ hs1]
    by_cases hu : sAt = "updated_at"
    · rw [lookupKey_recSet, if_pos hu.symm]
    · rw [lookupKey_recSet, if_neg (fun h => hu h.symm)]
      rw [lookupKey_recSet, if_neg (fun h => hs3 h.symm)]
      rw [hD, hdata_eq, hbase]
      simp [lookupKey, Ne.symm hs4, Option.orElse]
  · rw [lookupKey_uirRecord]
    rw [if_neg (by decide), if_neg (by decide)]
    rw [lookupKey_uirBase_ne _ _ _ _ _ (by decide)]
    rw [lookupKey_recSet, if_pos rfl]
  · rw [lookupKey_uirRecord]
    rw [if_pos rfl]
  · rw [lookupKey_uirRecord]
    rw [if_neg (by decide), if_neg (by decide)]
    rw [lookupKey_uirBase_created]
    rw [lookupKey_recSet, if_neg (by decide), lookupKey_recSet,
      if_neg (by decide), hD]
    have hnone : lookupKey "created_at" data = none := by
      rw [hdata_eq, hbase]
      rw [lookupKey_append]
      have h1 : lookupKey "created_at"
          [("status", Json.str status), (sAt, Json.str now)] = none := by
        simp [lookupKey, hs1]
      rw [h1]
      have h2 : lookupKey "created_at" extra = none := by
        apply lookupKey_eq_none_of_keys_ne
        intro p hp
        exact (hextra p hp).2.2.1
      simp [Option.orElse, h2]
    rw [hnone]
    simp [Option.orElse]
  · intro k v hkv
    have hmem := lookupKey_some_mem hkv
    have hks := hextra (k, v) hmem
    rw [lookupKey_uirRecord]
    rw [if_neg hks.1, if_neg hks.2.2.2.1]
    rw [lookupKey_uirBase_ne _ _ _ _ _ hks.2.2.1]
    rw [lookupKey_recSet, if_neg (fun h => hks.2.1 h.symm)]
    rw [lookupKey_recSet, if_neg (fun h => hks.1 h.symm)]
    rw [hD, hdata_eq, hbase]
    rw [lookupKey_append]
    have h1 : lookupKey k [("status", Json.str status), (sAt, Json.str now)] = none := by
      simp [lookupKey, Ne.symm hks.2.2.2.2.1, Ne.symm hks.2.2.2.2.2]
    rw [h1]
    simp [Option.orElse, hkv]
  · intro k hkextra hks hksat hku hkup hkcr hkdoc
    rw [lookupKey_uirRecord]
    rw [if_neg hku, if_neg hkdoc]
    rw [lookupKey_uirBase_ne _ _ _ _ _ hkcr]
    rw [lookupKey_recSet, if_neg (fun h => hkup h.symm)]
    rw [lookupKey_recSet, if_neg (fun h => hku h.symm)]
    rw [hD, hdata_eq, hbase]
    rw [lookupKey_append]
    have h1 : lookupKey k [("status", Json.str status), (sAt, Json.str now)] = none := by
      simp [lookupKey, Ne.symm hks, Ne.symm hksat]
    have h2 : lookupKey k extra = none := by
      apply lookupKey_eq_none_of_keys_ne
      intro p hp
      exact hkextra p hp
    rw [h1, h2]
    simp [Option.orElse]
  · rw [lookupKey_uirRecord]
    rw [if_neg (by decide), if_pos rfl]
    have hbv : lookupKey "doc_id" (uirBase now utid data rec) =
        lookupKey "doc_id" rec := by
      rw [lookupKey_uirBase_ne _ _ _ _ _ (by decide)]
      rw [lookupKey_recSet, if_neg (by decide), lookupKey_recSet,
        if_neg (by decide), hD]
      have hnone : lookupKey "doc_id" data = none := by
        rw [hdata_eq, hbase]
        rw [lookupKey_append]
        have h1 : lookupKey "doc_id"
            [("status", Json.str status), (sAt, Json.str now)] = none := by
          simp [lookupKey, hs2]
        rw [h1]
        have h2 : lookupKey "doc_id" extra = none := by
          apply lookupKey_eq_none_of_keys_ne
          intro p hp
          exact (hextra p hp).2.2.2.1
        simp [Option.orElse, h2]
      rw [hnone]
      simp [Option.orElse]
    rw [hbv]

/-- C9 witness: applying the amended theorem to a concrete STARTED record
with one extra field. -/
theorem claim_C9_witness :
    ∃ rec', assocFind "curation_0001_m_v1.0.0.json"
        (updateStatus "T9" "utid-x" "SUCCESS"
          [("doc_count", .num 3)] c9Store).files = some rec' ∧
      lookupKey "status" rec' = some (.str "SUCCESS") ∧
      lookupKey (pyLower "SUCCESS" ++ "_at") rec' = some (.str "T9") ∧
      lookupKey "updated_at" rec' = some (.str "T9") ∧
      lookupKey "utid" rec' = some (.str "utid-x") ∧
      lookupKey "created_at" rec' =
        some ((lookupKey "created_at" c9Record).getD (.str "T9")) ∧
      (∀ k v, lookupKey k [(("doc_count" : String), Json.num 3)] = some v →
        lookupKey k rec' = some v) ∧
      (∀ k, (∀ p ∈ [(("doc_count" : String), Json.num 3)], p.1 ≠ k) →
        k ≠ "status" → k ≠ pyLower "SUCCESS" ++ "_at" → k ≠ "utid" →
        k ≠ "updated_at" → k ≠ "created_at" → k ≠ "doc_id" →
        lookupKey k rec' = lookupKey k c9Record) ∧
      (lookupKey "doc_id" rec' =
        match lookupKey "doc_id" c9Record with
        | some dv => if truthy dv then some dv else none
        | none => none) :=
  claim_C9 "T9" "utid-x" "SUCCESS" [("doc_count", .num 3)] c9Store
    "curation_0001_m_v1.0.0.json" c9Record rfl rfl (by simp)
    (by intro p hp; simp at hp; subst hp; refine ⟨?_, ?_, ?_, ?_, ?_, ?_⟩ <;> decide)
    (by decide) (by decide) (by decide) (by decide)

/-! ## C7: interpreter failure handling -/

theorem runSteps_stops_at_first_error (invoke : Invoke) (pre : List StepSpec) :
    ∀ (rest : List StepSpec) (f : StepSpec) (ctx : Rec) (comps0 log0 : List Json)
      (ctx1 : Rec) (comps1 log1 : List Json) (efail : String) (ctxe : Rec),
      runSteps invoke pre ctx comps0 log0 = .ok ctx1 comps1 log1 →
      invoke f.component ctx1 = .error (efail, ctxe) →
      runSteps invoke (pre ++ f :: rest) ctx comps0 log0 =
        .err efail ctxe comps1 log1 := by
  induction pre with
  | nil =>
    intro rest f ctx comps0 log0 ctx1 comps1 log1 efail ctxe hok hinv
    simp only [runSteps] at hok
    cases hok
    simp only [List.nil_append, runSteps, hinv]
  | cons s t ih =>
    intro rest f ctx comps0 log0 ctx1 comps1 log1 efail ctxe hok hinv
    simp only [runSteps] at hok ⊢
    cases hs : invoke s.component ctx with
    | error p =>
      rw [hs] at hok
      cases hok
    | ok p =>
      rw [hs] at hok
      simp only [List.cons_append, runSteps, hs]
      exact ih rest f p.2 _ _ ctx1 comps1 log1 efail ctxe hok hinv

theorem runFail_evidence (cfg : InterpCfg) (now e : String) (ctxF : Rec)
    (comps log : List Json) (wildRaw : Option (String × Option String))
    (st : EvState) (fn : String)
    (hcache : assocFind cfg.utid st.cache = some fn) :
    (runFail cfg now e ctxF comps log wildRaw st).1 =
      { status := "FAILURE", utid := cfg.utid, error := some e } ∧
    ∃ rec', assocFind fn (runFail cfg now e ctxF comps log wildRaw st).2.files =
        some rec' ∧
      lookupKey "status" rec' = some (.str "FAILURE") ∧
      lookupKey "error" rec' = some (.str e) ∧
      lookupKey "bom" rec' =
        some (bomJson cfg comps log wildRaw
          ((lookupKey "doc_id" ctxF).getD (.str "unknown")) now "FAILURE"
          (some e)) := by
  set docId := (lookupKey "doc_id" ctxF).getD (.str "unknown") with hdoc
  set bom := bomJson cfg comps log wildRaw docId now "FAILURE" (some e) with hbom
  have hwb : writeBom now cfg.utid bom st =
      ⟨assocSet st.files fn
        (uirRecord now cfg.utid [("bom", bom)] ((assocFind fn st.files).getD [])),
       st.cache, st.seqs⟩ := writeUir_cacheHit hcache
  set r1 : Rec :=
    uirRecord now cfg.utid [("bom", bom)] ((assocFind fn st.files).getD []) with hr1
  have hcache1 : assocFind cfg.utid (writeBom now cfg.utid bom st).cache = some fn := by
    rw [hwb]
    exact hcache
  have hus : updateStatus now cfg.utid "FAILURE"
      (mkDict [("error", Json.str e), ("doc_id", docId)])
      (writeBom now cfg.utid bom st) =
      writeUir now cfg.utid
        (mkDict ([("status", Json.str "FAILURE"),
                  (pyLower "FAILURE" ++ "_at", Json.str now)] ++
                 mkDict [("error", Json.str e), ("doc_id", docId)]))
        none none (writeBom now cfg.utid bom st) := rfl
  have hfind1 : assocFind fn (writeBom now cfg.utid bom st).files = some r1 := by
    rw [hwb]
    show assocFind fn (assocSet st.files fn r1) = some r1
    rw [assocFind_assocSet]
    simp
  constructor
  · rfl
  · set data2 := mkDict ([("status", Json.str "FAILURE"),
      (pyLower "FAILURE" ++ "_at", Json.str now)] ++
      mkDict [("error", Json.str e), ("doc_id", docId)]) with hdata2
    have hdata2_eq : data2 = [("status", Json.str "FAILURE"),
        ("failure_at", Json.str now), ("error", Json.str e),
        ("doc_id", docId)] := by
      rw [hdata2]
      rfl
    have hrf : (runFail cfg now e ctxF comps log wildRaw st).2 =
        writeUir now cfg.utid data2 none none (writeBom now cfg.utid bom st) := rfl
    rw [hrf, writeUir_cacheHit hcache1]
    refine ⟨uirRecord now cfg.utid data2
      ((assocFind fn (writeBom now cfg.utid bom st).files).getD []), ?_, ?_, ?_, ?_⟩
    · show assocFind fn (assocSet (writeBom now cfg.utid bom st).files fn _) = _
      rw [assocFind_assocSet]
      simp
    · rw [hfind1]
      rw [lookupKey_uirRecord, if_neg (by decide), if_neg (by decide)]
      rw [lookupKey_uirBase_ne _ _ _ _ _ (by decide)]
      rw [lookupKey_recSet, if_neg (by decide), lookupKey_recSet,
        if_neg (by decide)]
      rw [hdata2_eq]
      simp [recUpdate, lookupKey_recSet]
    · rw [hfind1]
      rw [lookupKey_uirRecord, if_neg (by decide), if_neg (by decide)]
      rw [lookupKey_uirBase_ne _ _ _ _ _ (by decide)]
      rw [lookupKey_recSet, if_neg (by decide), lookupKey_recSet,
        if_neg (by decide)]
      rw [hdata2_eq]
      simp [recUpdate, lookupKey_recSet]
    · rw [hfind1]
      rw [lookupKey_uirRecord, if_neg (by decide), if_neg (by decide)]
      rw [lookupKey_uirBase_ne _ _ _ _ _ (by decide)]
      rw [lookupKey_recSet, if_neg (by decide), lookupKey_recSet,
        if_neg (by decide)]
      rw [hdata2_eq]
      have hbom1 : lookupKey "bom" r1 = some bom := by
        rw [hr1]
        rw [lookupKey_uirRecord, if_neg (by decide), if_neg (by decide)]
        rw [lookupKey_uirBase_ne _ _ _ _ _ (by decide)]
        rw [lookupKey_recSet, if_neg (by decide), lookupKey_recSet,
          if_neg (by decide)]
        simp [recUpdate, lookupKey_recSet]
      simp [recUpdate, lookupKey_recSet, hbom1]

/-- C7: any error raised by the ingestion component or by any processing step
inside `run` is caught: `run` returns a failure result (it does not raise),
the evidence record is updated to `status=FAILURE` with the error message,
and the written BOM carries exactly the execution log accumulated before the
failure plus the error; moreover the steps loop stops at the first failing
step, so that log is precisely the successfully completed prefix. -/
theorem claim_C7 (invoke : Invoke) (cfg : InterpCfg) (now : String)
    (st : EvState) (fn e : String) (ctxF : Rec) (comps log : List Json)
    (wildRaw : Option (String × Option String))
    (hcache : assocFind cfg.utid st.cache = some fn)
    (hfail :
      (ingestPhase invoke cfg (interpCtx cfg) = .error (e, ctxF) ∧
        comps = [] ∧ log = [] ∧ wildRaw = none) ∨
      (∃ ctx1 comps1 log1,
        ingestPhase invoke cfg (interpCtx cfg) = .ok (ctx1, comps1, log1, wildRaw) ∧
        runSteps invoke cfg.steps ctx1 comps1 log1 = .err e ctxF comps log)) :
    ((runInterp invoke cfg now st).1 =
      { status := "FAILURE", utid := cfg.utid, error := some e } ∧
     ∃ rec', assocFind fn (runInterp invoke cfg now st).2.files = some rec' ∧
       lookupKey "status" rec' = some (.str "FAILURE") ∧
       lookupKey "error" rec' = some (.str e) ∧
       lookupKey "bom" rec' =
         some (bomJson cfg comps log wildRaw
           ((lookupKey "doc_id" ctxF).getD (.str "unknown")) now "FAILURE"
           (some e))) ∧
    (∀ (pre rest : List StepSpec) (f : StepSpec) (ctx : Rec)
       (comps0 log0 : List Json) (ctx1 : Rec) (comps1 log1 : List Json)
       (efail : String) (ctxe : Rec),
      runSteps invoke pre ctx comps0 log0 = .ok ctx1 comps1 log1 →
      invoke f.component ctx1 = .error (efail, ctxe) →
      runSteps invoke (pre ++ f :: rest) ctx comps0 log0 =
        .err efail ctxe comps1 log1) := by
  constructor
  · rcases hfail with ⟨hing, hc, hl, hw⟩ | ⟨ctx1, comps1, log1, hing, hsteps⟩
    · subst hc; subst hl; subst hw
      have hrun : runInterp invoke cfg now st = runFail cfg now e ctxF [] [] none st := by
        unfold runInterp
        rw [hing]
      rw [hrun]
      exact runFail_evidence cfg now e ctxF [] [] none st fn hcache
    · have hrun : runInterp invoke cfg now st =
          runFail cfg now e ctxF comps log wildRaw st := by
        unfold runInterp
        rw [hing]
        dsimp only
        rw [hsteps]
      rw [hrun]
      exact runFail_evidence cfg now e ctxF comps log wildRaw st fn hcache
  · intro pre rest f ctx comps0 log0 ctx1 comps1 log1 efail ctxe hok hinv
    exact runSteps_stops_at_first_error invoke pre rest f ctx comps0 log0
      ctx1 comps1 log1 efail ctxe hok hinv

/-- A one-step interpreter configuration whose ingestion raises. -/
def c7Cfg : InterpCfg :=
  { utid := "utid-x", manifestId := "m", manifestVersion := "1.0.0",
    engine := "python", engineVersion := "3.11", replayMode := false,
    sourceUtid := none, manifest := .obj [],
    ingestSpec := ⟨"v1.ingest_default.run", "1.0.0", .obj []⟩,
    steps := [], startedAt := "T0" }

/-- An invocation oracle that always raises `boom`. -/
def c7Invoke : Invoke := fun _ ctx => .error ("boom", ctx)

/-- A store whose cache memoizes `utid-x`. -/
def c7Store : EvState := ⟨[], [("utid-x", "curation_0001_m_v1.0.0.json")], []⟩

/-- C7 witness: a failing ingestion on a concrete configuration yields the
failure result and the recorded FAILURE evidence. -/
theorem claim_C7_witness :
    ((runInterp c7Invoke c7Cfg "T1" c7Store).1 =
      { status := "FAILURE", utid := "utid-x", error := some "boom" } ∧
     ∃ rec', assocFind "curation_0001_m_v1.0.0.json"
         (runInterp c7Invoke c7Cfg "T1" c7Store).2.files = some rec' ∧
       lookupKey "status" rec' = some (.str "FAILURE") ∧
       lookupKey "error" rec' = some (.str "boom") ∧
       lookupKey "bom" rec' =
         some (bomJson c7Cfg [] [] none
           ((lookupKey "doc_id" (interpCtx c7Cfg)).getD (.str "unknown")) "T1"
           "FAILURE" (some "boom"))) ∧
    (∀ (pre rest : List StepSpec) (f : StepSpec) (ctx : Rec)
       (comps0 log0 : List Json) (ctx1 : Rec) (comps1 log1 : List Json)
       (efail : String) (ctxe : Rec),
      runSteps c7Invoke pre ctx comps0 log0 = .ok ctx1 comps1 log1 →
      c7Invoke f.component ctx1 = .error (efail, ctxe) →
      runSteps c7Invoke (pre ++ f :: rest) ctx comps0 log0 =
        .err efail ctxe comps1 log1) :=
  claim_C7 c7Invoke c7Cfg "T1" c7Store "curation_0001_m_v1.0.0.json" "boom"
    (interpCtx c7Cfg) [] [] none rfl (Or.inl ⟨rfl, rfl, rfl, rfl⟩)

/-! ## C8: trace reconstruction -/

theorem findEvidenceByUtid_utid {files : List (String × Rec)} {u : String}
    {r : Rec} (h : findEvidenceByUtid files u = some r) :
    lookupKey "utid" r = some (.str u) := by
  induction files with
  | nil => cases h
  | cons p t ih =>
    simp only [findEvidenceByUtid] at h
    split at h
    · rename_i hcond
      cases h
      have hmatch := (Bool.and_eq_true _ _).mp hcond |>.2
      cases hl : lookupKey "utid" p.2 with
      | none => rw [hl] at hmatch; cases hmatch
      | some v =>
        rw [hl] at hmatch
        cases v with
        | str u' =>
          simp at hmatch
          rw [hmatch]
        | null => cases hmatch
        | bool b => cases hmatch
        | num n => cases hmatch
        | arr l => cases hmatch
        | obj o => cases hmatch
    · exact ih h

theorem getU_of_utid {r : Rec} {u : String}
    (h : lookupKey "utid" r = some (.str u)) : getU r "utid" = u := by
  simp [getU, getStrD, h]

/-- C8: for a retrieval record with `semantic_utids = [S1, S2]` whose
semantic parents carry `curation_utid = C1` and `C2`, the walk visits exactly
retrieval, S1, C1, S2, C2 with no warnings; a missing semantic parent is
reported as a broken-lineage warning while the rest of the walk proceeds; and
the trace is reported verified iff the collected `doc_id`/`doc_ids` values
are non-empty. -/
theorem claim_C8 :
    (∀ (files : List (String × Rec)) (rUtid s1 s2 c1 c2 : String)
       (rRec s1Rec s2Rec c1Rec c2Rec : Rec),
      findEvidenceByUtid files rUtid = some rRec →
      layerOf rRec = "retrieval" →
      getStrList rRec "semantic_utids" = [s1, s2] →
      findEvidenceByUtid files s1 = some s1Rec →
      findEvidenceByUtid files s2 = some s2Rec →
      getU s1Rec "curation_utid" = c1 →
      getU s2Rec "curation_utid" = c2 →
      findEvidenceByUtid files c1 = some c1Rec →
      findEvidenceByUtid files c2 = some c2Rec →
      visitedUtids (traceWalk files rUtid).1 = [rUtid, s1, c1, s2, c2] ∧
      (traceWalk files rUtid).2 = []) ∧
    (∀ (files : List (String × Rec)) (rUtid s1 s2 c1 : String)
       (rRec s1Rec c1Rec : Rec),
      findEvidenceByUtid files rUtid = some rRec →
      layerOf rRec = "retrieval" →
      getStrList rRec "semantic_utids" = [s1, s2] →
      findEvidenceByUtid files s1 = some s1Rec →
      findEvidenceByUtid files s2 = none →
      getU s1Rec "curation_utid" = c1 →
      findEvidenceByUtid files c1 = some c1Rec →
      visitedUtids (traceWalk files rUtid).1 = [rUtid, s1, c1] ∧
      (traceWalk files rUtid).2 = ["Semantic evidence not found: " ++ s2]) ∧
    (∀ (files : List (String × Rec)) (utid : String),
      traceVerified files utid = true ↔
        collectDocIds (traceWalk files utid).1 ≠ []) := by
  refine ⟨?_, ?_, ?_⟩
  · intro files rUtid s1 s2 c1 c2 rRec s1Rec s2Rec c1Rec c2Rec
      h0 h1 h2 h3 h4 h5 h6 h7 h8
    have hru : getU rRec "utid" = rUtid := getU_of_utid (findEvidenceByUtid_utid h0)
    have hs1u : getU s1Rec "utid" = s1 := getU_of_utid (findEvidenceByUtid_utid h3)
    have hs2u : getU s2Rec "utid" = s2 := getU_of_utid (findEvidenceByUtid_utid h4)
    have hc1u : getU c1Rec "utid" = c1 := getU_of_utid (findEvidenceByUtid_utid h7)
    have hc2u : getU c2Rec "utid" = c2 := getU_of_utid (findEvidenceByUtid_utid h8)
    have hwalk : traceWalk files rUtid = traceRetrieval files rRec := by
      simp [traceWalk, h0, h1]
    rw [hwalk]
    simp [traceRetrieval, h2, traceSemList, h3, h4, traceSemantic, h5, h6,
      h7, h8, traceCuration, visitedUtids, visitedUtidsList, hru, hs1u, hs2u,
      hc1u, hc2u]
  · intro files rUtid s1 s2 c1 rRec s1Rec c1Rec h0 h1 h2 h3 h4 h5 h6
    have hru : getU rRec "utid" = rUtid := getU_of_utid (findEvidenceByUtid_utid h0)
    have hs1u : getU s1Rec "utid" = s1 := getU_of_utid (findEvidenceByUtid_utid h3)
    have hc1u : getU c1Rec "utid" = c1 := getU_of_utid (findEvidenceByUtid_utid h6)
    have hwalk : traceWalk files rUtid = traceRetrieval files rRec := by
      simp [traceWalk, h0, h1]
    rw [hwalk]
    simp [traceRetrieval, h2, traceSemList, h3, h4, traceSemantic, h5,
      h6, traceCuration, visitedUtids, visitedUtidsList, hru, hs1u, hc1u]
  · intro files utid
    simp [traceVerified]

/-- Concrete retrieval evidence record with two semantic parents. -/
def c8RRec : Rec :=
  [("utid", .str "utid-r"), ("record_type", .str "retrieval"),
   ("semantic_utids", .arr [.str "utid-s1", .str "utid-s2"]),
   ("doc_ids", .arr [.str "doc-1", .str "doc-2"]),
   ("manifest_id", .str "retrieval_query"), ("status", .str "SUCCESS")]

/-- Concrete semantic evidence record S1. -/
def c8S1Rec : Rec :=
  [("utid", .str "utid-s1"), ("record_type", .str "semantic"),
   ("curation_utid", .str "utid-c1"), ("doc_id", .str "doc-1"),
   ("manifest_id", .str "ont1"), ("status", .str "SUCCESS")]

/-- Concrete semantic evidence record S2. -/
def c8S2Rec : Rec :=
  [("utid", .str "utid-s2"), ("record_type", .str "semantic"),
   ("curation_utid", .str "utid-c2"), ("doc_id", .str "doc-2"),
   ("manifest_id", .str "ont2"), ("status", .str "SUCCESS")]

/-- Concrete curation evidence record C1. -/
def c8C1Rec : Rec :=
  [("utid", .str "utid-c1"), ("layer", .str "curation"),
   ("doc_id", .str "doc-1"), ("manifest_id", .str "cur1"),
   ("status", .str "SUCCESS")]

/-- Concrete curation evidence record C2. -/
def c8C2Rec : Rec :=
  [("utid", .str "utid-c2"), ("layer", .str "curation"),
   ("doc_id", .str "doc-2"), ("manifest_id", .str "cur2"),
   ("status", .str "SUCCESS")]

/-- The concrete evidence directory for the C8 scenario. -/
def c8Files : List (String × Rec) :=
  [("retrieval_0001_q.json", c8RRec), ("semantic_0001_o.json", c8S1Rec),
   ("semantic_0002_o.json", c8S2Rec), ("curation_0001_c.json", c8C1Rec),
   ("curation_0002_c.json", c8C2Rec)]

/-- C8 witness: on the concrete five-record store the walk visits exactly
the five nodes in order with no warnings. -/
theorem claim_C8_witness :
    visitedUtids (traceWalk c8Files "utid-r").1 =
      ["utid-r", "utid-s1", "utid-c1", "utid-s2", "utid-c2"] ∧
    (traceWalk c8Files "utid-r").2 = [] :=
  claim_C8.1 c8Files "utid-r" "utid-s1" "utid-s2" "utid-c1" "utid-c2"
    c8RRec c8S1Rec c8S2Rec c8C1Rec c8C2Rec
    (by simp [findEvidenceByUtid, c8Files, matchGlob, lookupKey, c8RRec])
    (by decide) (by decide)
    (by simp [findEvidenceByUtid, c8Files, matchGlob, lookupKey, c8RRec, c8S1Rec])
    (by simp [findEvidenceByUtid, c8Files, matchGlob, lookupKey, c8RRec, c8S1Rec, c8S2Rec])
    (by decide) (by decide)
    (by simp [findEvidenceByUtid, c8Files, matchGlob, lookupKey, c8RRec, c8S1Rec, c8S2Rec, c8C1Rec])
    (by simp [findEvidenceByUtid, c8Files, matchGlob, lookupKey, c8RRec, c8S1Rec, c8S2Rec, c8C1Rec, c8C2Rec])

/-! ## C10: canonical hashing is key-order invariant -/

theorem jsonEqbSub_spec {o1 o2 : List (String × Json)}
    (h : jsonEqbSub o1 o2 = true) :
    ∀ k v, (k, v) ∈ o1 → ∃ v', lookupKey k o2 = some v' ∧ jsonEqb v v' = true := by
  induction o1 with
  | nil => intro k v hm; cases hm
  | cons p t ih =>
    obtain ⟨pk, pv⟩ := p
    intro k v hm
    simp only [jsonEqbSub, Bool.and_eq_true] at h
    rcases List.mem_cons.mp hm with hm | hm
    · cases hm
      cases hl : lookupKey pk o2 with
      | none => rw [hl] at h; cases h.1
      | some v' =>
        rw [hl] at h
        exact ⟨v', rfl, h.1⟩
    · exact ih h.2 k v hm

theorem mem_serializeEntries {o : List (String × Json)} {k : String}
    {s : List Char} :
    (k, s) ∈ serializeEntries o ↔ ∃ v, (k, v) ∈ o ∧ s = serialize v := by
  induction o with
  | nil => simp [serializeEntries]
  | cons p t ih =>
    obtain ⟨pk, pv⟩ := p
    simp only [serializeEntries, List.mem_cons, ih, Prod.mk.injEq]
    constructor
    · rintro (⟨hk, hs⟩ | ⟨v, hv, hs⟩)
      · exact ⟨pv, Or.inl ⟨hk, rfl⟩, hs⟩
      · exact ⟨v, Or.inr hv, hs⟩
    · rintro ⟨v, ⟨hk, hveq⟩ | hv, hs⟩
      · left
        exact ⟨hk, by rw [hs, hveq]⟩
      · exact Or.inr ⟨v, hv, hs⟩

theorem map_fst_serializeEntries (o : List (String × Json)) :
    (serializeEntries o).map Prod.fst = o.map Prod.fst := by
  induction o with
  | nil => simp [serializeEntries]
  | cons p t ih =>
    obtain ⟨pk, pv⟩ := p
    simp [serializeEntries, ih]

theorem lookupKey_of_mem_nodup {l : Rec} {k : String} {v : Json}
    (hm : (k, v) ∈ l) (hnd : (l.map Prod.fst).Nodup) :
    lookupKey k l = some v := by
  induction l with
  | nil => cases hm
  | cons p t ih =>
    obtain ⟨pk, pv⟩ := p
    obtain ⟨hpk_nm, hnd'⟩ :=
      List.nodup_cons.mp (show (pk :: t.map Prod.fst).Nodup from hnd)
    rcases List.mem_cons.mp hm with hm | hm
    · cases hm
      simp [lookupKey]
    · have hk : pk ≠ k := by
        intro hc
        exact hpk_nm (List.mem_map.mpr ⟨(k, v), hm, hc.symm⟩)
      simp [lookupKey, hk]
      exact ih hm hnd'

theorem mem_keys_exists {l : Rec} {k : String}
    (h : k ∈ l.map Prod.fst) : ∃ v, (k, v) ∈ l := by
  obtain ⟨p, hp, hpk⟩ := List.mem_map.mp h
  refine ⟨p.2, ?_⟩
  have hkp : (k, p.2) = p := by
    obtain ⟨a, b⟩ := p
    simp only at hpk
    simp [hpk]
  rwa [hkp]

theorem entryLEb_trans (a b c : String × List Char)
    (h1 : entryLEb a b) (h2 : entryLEb b c) : entryLEb a c := by
  simp only [entryLEb, decide_eq_true_eq] at h1 h2 ⊢
  exact le_trans h1 h2

theorem entryLEb_total (a b : String × List Char) :
    entryLEb a b || entryLEb b a := by
  simp only [entryLEb]
  rcases le_total a.1 b.1 with h | h <;> simp [h]

/-- An order-theoretic key comparison on serialized entries. -/
def entryKeyLt (a b : String × List Char) : Prop := a.1 < b.1

theorem pairwise_entryKeyLt_of_sorted {l : List (String × List Char)}
    (hs : l.Pairwise (entryLEb · ·)) (hnd : (l.map Prod.fst).Nodup) :
    l.Pairwise entryKeyLt := by
  have hne : l.Pairwise (fun a b => a.1 ≠ b.1) :=
    (List.pairwise_map.mp hnd)
  have := List.Pairwise.and hs hne
  exact this.imp (fun h => lt_of_le_of_ne (by simpa [entryLEb] using h.1) h.2)

theorem serialize_congr_sized :
    ∀ (n : Nat) (j1 : Json), sizeOf j1 ≤ n →
      ∀ j2, jsonEqb j1 j2 = true → serialize j1 = serialize j2 := by
  intro n
  induction n with
  | zero =>
    intro j1 hsz
    exfalso
    cases j1 <;> simp_arith at hsz
  | succ n ih =>
    intro j1 hsz j2 heq
    cases j1 with
    | null =>
      cases j2 with
      | null => rfl
      | bool b => simp [jsonEqb] at heq
      | num m => simp [jsonEqb] at heq
      | str s => simp [jsonEqb] at heq
      | arr l => simp [jsonEqb] at heq
      | obj o => simp [jsonEqb] at heq
    | bool b =>
      cases j2 with
      | bool b2 =>
        simp only [jsonEqb, decide_eq_true_eq] at heq
        rw [heq]
      | null => simp [jsonEqb] at heq
      | num m => simp [jsonEqb] at heq
      | str s => simp [jsonEqb] at heq
      | arr l => simp [jsonEqb] at heq
      | obj o => simp [jsonEqb] at heq
    | num a =>
      cases j2 with
      | num a2 =>
        simp only [jsonEqb, decide_eq_true_eq] at heq
        rw [heq]
      | null => simp [jsonEqb] at heq
      | bool b => simp [jsonEqb] at heq
      | str s => simp [jsonEqb] at heq
      | arr l => simp [jsonEqb] at heq
      | obj o => simp [jsonEqb] at heq
    | str a =>
      cases j2 with
      | str a2 =>
        simp only [jsonEqb, decide_eq_true_eq] at heq
        rw [heq]
      | null => simp [jsonEqb] at heq
      | bool b => simp [jsonEqb] at heq
      | num m => simp [jsonEqb] at heq
      | arr l => simp [jsonEqb] at heq
      | obj o => simp [jsonEqb] at heq
    | arr l1 =>
      cases j2 with
      | arr l2 =>
        simp only [jsonEqb] at heq
        have hl1 : sizeOf l1 ≤ n := by
          have := Json.arr.sizeOf_spec l1
          omega
        have hlst : ∀ (m1 : List Json), sizeOf m1 ≤ sizeOf l1 →
            ∀ m2, jsonEqbArr m1 m2 = true → serializeList m1 = serializeList m2 := by
          intro m1
          induction m1 with
          | nil =>
            intro _ m2 h2
            cases m2 with
            | nil => rfl
            | cons y ys => simp [jsonEqbArr] at h2
          | cons x xs ihx =>
            intro hm1 m2 h2
            cases m2 with
            | nil => simp [jsonEqbArr] at h2
            | cons y ys =>
              simp only [jsonEqbArr, Bool.and_eq_true] at h2
              have hx : sizeOf x ≤ n := by
                have h1 : sizeOf x < sizeOf (x :: xs) :=
                  List.sizeOf_lt_of_mem (by simp)
                omega
              have hxs : sizeOf xs ≤ sizeOf l1 := by
                have : sizeOf (x :: xs) = 1 + sizeOf x + sizeOf xs := rfl
                have hxp : 0 < sizeOf x := by
                  cases x <;> simp_arith
                omega
              simp [serializeList, ih x hx y h2.1, ihx hxs ys h2.2]
        have := hlst l1 le_rfl l2 heq
        simp only [serialize, this]
      | null => simp [jsonEqb] at heq
      | bool b => simp [jsonEqb] at heq
      | num m => simp [jsonEqb] at heq
      | str s => simp [jsonEqb] at heq
      | obj o => simp [jsonEqb] at heq
    | obj o1 =>
      cases j2 with
      | obj o2 =>
        simp only [jsonEqb, Bool.and_eq_true] at heq
        obtain ⟨⟨⟨hnd1, hnd2⟩, hkeys⟩, hsub⟩ := heq
        have hnd1p : (o1.map Prod.fst).Nodup := by
          have := of_decide_eq_true hnd1
          simpa [objKeys] using this
        have hnd2p : (o2.map Prod.fst).Nodup := by
          have := of_decide_eq_true hnd2
          simpa [objKeys] using this
        have hkeys' : ∀ k, k ∈ o2.map Prod.fst → k ∈ o1.map Prod.fst := by
          intro k hk
          have := List.all_eq_true.mp hkeys k (by simpa [objKeys] using hk)
          simpa [objKeys] using this
        have ho1 : sizeOf o1 ≤ n := by
          have := Json.obj.sizeOf_spec o1
          omega
        have hvbound : ∀ k v, (k, v) ∈ o1 → sizeOf v ≤ n := by
          intro k v hm
          have h1 : sizeOf (k, v) < sizeOf o1 := List.sizeOf_lt_of_mem hm
          have h2 : sizeOf (k, v) = 1 + sizeOf k + sizeOf v := rfl
          omega
        have hperm : List.Perm (serializeEntries o1) (serializeEntries o2) := by
          rw [List.perm_ext_iff_of_nodup
            (List.Nodup.of_map Prod.fst (by rw [map_fst_serializeEntries]; exact hnd1p))
            (List.Nodup.of_map Prod.fst (by rw [map_fst_serializeEntries]; exact hnd2p))]
          rintro ⟨k, s⟩
          rw [mem_serializeEntries, mem_serializeEntries]
          constructor
          · rintro ⟨v, hv, hs⟩
            obtain ⟨v', hl, he⟩ := jsonEqbSub_spec hsub k v hv
            have hser : serialize v = serialize v' := ih v (hvbound k v hv) v' he
            exact ⟨v', lookupKey_some_mem hl, by rw [hs, hser]⟩
          · rintro ⟨v2, hv2, hs⟩
            have hk2 : k ∈ o2.map Prod.fst := List.mem_map.mpr ⟨(k, v2), hv2, rfl⟩
            obtain ⟨v1, hv1⟩ := mem_keys_exists (hkeys' k hk2)
            obtain ⟨v', hl, he⟩ := jsonEqbSub_spec hsub k v1 hv1
            have hv2v' : v2 = v' := by
              have h2l := lookupKey_of_mem_nodup hv2 hnd2p
              rw [h2l] at hl
              injection hl
            have hser : serialize v1 = serialize v' := ih v1 (hvbound k v1 hv1) v' he
            refine ⟨v1, hv1, ?_⟩
            rw [hs, hv2v', ← hser]
        haveI : IsAntisymm (String × List Char) entryKeyLt :=
          ⟨fun a b h1 h2 => absurd h2 (lt_asymm h1)⟩
        have hsort1 := @List.sorted_mergeSort _ entryLEb
          entryLEb_trans entryLEb_total (serializeEntries o1)
        have hsort2 := @List.sorted_mergeSort _ entryLEb
          entryLEb_trans entryLEb_total (serializeEntries o2)
        have hndm1 : (((serializeEntries o1).mergeSort entryLEb).map Prod.fst).Nodup := by
          rw [(((List.mergeSort_perm (serializeEntries o1) entryLEb)).map Prod.fst).nodup_iff]
          rw [map_fst_serializeEntries]
          exact hnd1p
        have hndm2 : (((serializeEntries o2).mergeSort entryLEb).map Prod.fst).Nodup := by
          rw [(((List.mergeSort_perm (serializeEntries o2) entryLEb)).map Prod.fst).nodup_iff]
          rw [map_fst_serializeEntries]
          exact hnd2p
        have hlt1 := pairwise_entryKeyLt_of_sorted hsort1 hndm1
        have hlt2 := pairwise_entryKeyLt_of_sorted hsort2 hndm2
        have hpermsort : List.Perm ((serializeEntries o1).mergeSort entryLEb)
            ((serializeEntries o2).mergeSort entryLEb) :=
          ((List.mergeSort_perm (serializeEntries o1) entryLEb).trans hperm).trans
            (List.mergeSort_perm (serializeEntries o2) entryLEb).symm
        have hsorteq : (serializeEntries o1).mergeSort entryLEb =
            (serializeEntries o2).mergeSort entryLEb :=
          List.eq_of_perm_of_sorted hpermsort hlt1 hlt2
        simp only [serialize, hsorteq]
      | null => simp [jsonEqb] at heq
      | bool b => simp [jsonEqb] at heq
      | num m => simp [jsonEqb] at heq
      | str s => simp [jsonEqb] at heq
      | arr l => simp [jsonEqb] at heq

theorem serialize_congr {j1 j2 : Json} (h : jsonEqb j1 j2 = true) :
    serialize j1 = serialize j2 :=
  serialize_congr_sized (sizeOf j1) j1 le_rfl j2 h

theorem sha256_length (msg : List Nat) : (sha256 msg).length = 32 := by
  simp [sha256, wordBytes]

theorem hexChars_length (bs : List Nat) : (hexChars bs).length = 2 * bs.length := by
  induction bs with
  | nil => rfl
  | cons b t ih =>
    simp only [hexChars] at ih ⊢
    simp [byteHex, ih]
    omega

theorem computeHash_length (m : Json) : (computeHash m).length = 16 := by
  have h1 : (hexChars (sha256 (utf8Bytes (serialize m)))).length = 64 := by
    rw [hexChars_length, sha256_length]
  show ((hexChars (sha256 (utf8Bytes (serialize m)))).take 16).length = 16
  rw [List.length_take, h1]
  decide

theorem hexDigitChar_isHex {n : Nat} (h : n < 16) :
    isHexDigitChar (hexDigitChar n) = true := by
  interval_cases n <;> decide

theorem computeHash_isHex (m : Json) :
    ∀ c ∈ (computeHash m).data, isHexDigitChar c = true := by
  intro c hc
  have hc1 : c ∈ (hexChars (sha256 (utf8Bytes (serialize m)))).take 16 := hc
  have hc2 : c ∈ hexChars (sha256 (utf8Bytes (serialize m))) :=
    List.mem_of_mem_take hc1
  simp only [hexChars] at hc2
  obtain ⟨b, _, hcb⟩ := List.mem_flatMap.mp hc2
  simp only [byteHex, List.mem_cons, List.mem_singleton] at hcb
  rcases hcb with h | h | h
  · rw [h]
    exact hexDigitChar_isHex (Nat.mod_lt _ (by omega))
  · rw [h]
    exact hexDigitChar_isHex (Nat.mod_lt _ (by omega))
  · cases h

/-- C10: manifests that are equal as unordered key-value mappings serialize
to the same canonical string and therefore hash to the same 16-hex-character
string; consequently re-deploying the same logical content with differently
ordered keys compares hash-equal and is `SKIPPED`, not a governance
violation. -/
theorem claim_C10 (m1 m2 : Json) (heq : jsonEqb m1 m2 = true) :
    computeHash m1 = computeHash m2 ∧
    (computeHash m1).length = 16 ∧
    (∀ c ∈ (computeHash m1).data, isHexDigitChar c = true) ∧
    (∀ (now : String) (st : StoreState) (mid ver : String) (r : VersionRecord)
       (force : Bool) (layer agency : Option String),
      getManifestId m2 = some mid → getManifestVersion m2 = some ver →
      getDeployedVersioned st mid ver = some r →
      r.content_hash = computeHash m1 →
      deploy now m2 force layer agency st =
        .ok ({ status := "SKIPPED", reason := some "already_deployed",
               manifest_id := mid, version := ver }, st)) := by
  have hser : serialize m1 = serialize m2 := serialize_congr heq
  have hhash : computeHash m1 = computeHash m2 := by
    rw [computeHash, computeHash, hser]
  refine ⟨hhash, computeHash_length m1, computeHash_isHex m1, ?_⟩
  intro now st mid ver r force layer agency h1 h2 h3 h4
  have h4' : r.content_hash = computeHash m2 := by rw [h4, hhash]
  simp [deploy, h1, h2, h3, h4']

/-- A two-block manifest with keys in one order. -/
def c10M1 : Json :=
  .obj [("identity", .obj [("name", .str "m"), ("agency", .str "bls")]),
        ("evolution", .obj [("manifest_version", .str "1.0.0"),
                            ("engine", .str "python")])]

/-- The same logical manifest with keys in a different order. -/
def c10M2 : Json :=
  .obj [("evolution", .obj [("engine", .str "python"),
                            ("manifest_version", .str "1.0.0")]),
        ("identity", .obj [("agency", .str "bls"), ("name", .str "m")])]

/-- C10 witness: the two key orderings hash identically, to a 16-character
string. -/
theorem claim_C10_witness :
    computeHash c10M1 = computeHash c10M2 ∧ (computeHash c10M1).length = 16 :=
  ⟨(claim_C10 c10M1 c10M2 (by
      simp [c10M1, c10M2, jsonEqb, jsonEqbSub, nodupKeysb, objKeys, lookupKey])).1,
   (claim_C10 c10M1 c10M2 (by
      simp [c10M1, c10M2, jsonEqb, jsonEqbSub, nodupKeysb, objKeys, lookupKey])).2.1⟩

/-- An older manifest version for the same identity as `exampleManifest`. -/
def exampleOlderManifest : Json :=
  .obj [("identity", .obj [("name", .str "bls_employment_stats")]),
        ("evolution", .obj [("manifest_version", .str "0.9.0")])]

/-- C2 witness: deploying v0.9.0 after v1.0.0 leaves the pointer at 1.0.0. -/
theorem claim_C2_witness :
    (deployState "T2" exampleOlderManifest false none none exampleStore).latest =
      exampleStore.latest :=
  claim_C2.2 "T2" exampleOlderManifest false none none exampleStore
    "bls_employment_stats" "0.9.0" "1.0.0" rfl rfl rfl (by decide)

end MDA
